import Mathlib

/-!
Shallow embedding of the FiveTwelve game core (`src/FiveTwelve/model.py`).

Modelling conventions:
* Python `Tile` objects are values carrying an `id` field that stands for
  Python object identity (two distinct live tiles never share an `id`).
* `Grid.tiles` (a Python list of lists of `Optional[Tile]`) is a total
  function `Int → Int → Option Tile`; every access the source performs is
  guarded by `in_bounds`, so only in-range points are ever relevant.
* Randomness (`random.choice`, `random.randint(1, 10)`) is an explicit
  draw parameter: `k` selects the candidate index (`k % length`, uniform
  draws are `k < length`), `d` is the `randint` result (`d = 4` yields a
  4-tile, anything else a 2-tile).
* Python exceptions (the `assert` in `place_tile`, the `IndexError` that
  `set_tiles` hits on a too-small matrix) are modelled as `Option`
  results, `none` meaning the call raises instead of returning.
* Listener notifications (`notify_all`, `tile.remove`) and the debug
  `print` in `Tile.slide` are side effects on the view only; they do not
  touch the model state and are not modelled.
* The `while True` loop of `Tile.slide` is written with fuel; the moves
  call it with fuel `rows + cols`, which is proved sufficient below.
-/

def GRID_SIZE : Nat := 4

/-- A tile: `id` models Python object identity; `row`, `col`, `value`
are the mutable attributes of `Tile.__init__`. -/
structure Tile where
  id : Nat
  row : Int
  col : Int
  value : Int
deriving DecidableEq, Repr

/-- The grid state: dimensions, the running score field `sum`, and the
cell array (`None` = empty cell). -/
structure Grid where
  rows : Nat
  cols : Nat
  sum : Int
  tiles : Int → Int → Option Tile

/-- Models `Grid.__init__`: a `GRID_SIZE × GRID_SIZE` grid of `None`
with `sum = 0`. -/
def Grid.init : Grid :=
  { rows := GRID_SIZE, cols := GRID_SIZE, sum := 0, tiles := fun _ _ => none }

/-- Models `Grid.in_bounds`. -/
def Grid.in_bounds (g : Grid) (row col : Int) : Bool :=
  decide (0 ≤ row ∧ row < (g.rows : Int) ∧ 0 ≤ col ∧ col < (g.cols : Int))

/-- Value of an optional cell content, `0` for an empty cell (as in
`Grid.as_list`). -/
def tileVal : Option Tile → Int
  | none => 0
  | some t => t.value

/-- Models `Grid.as_list`: the grid as a matrix of values, `0` = empty. -/
def Grid.as_list (g : Grid) : List (List Int) :=
  (List.range g.rows).map fun r =>
    (List.range g.cols).map fun c => tileVal (g.tiles (r : Int) (c : Int))

/-- Entry lookup in the input matrix of `set_tiles`; `none` models the
`IndexError` Python raises when `rep[row][col]` is out of range. -/
def getRep (rep : List (List Int)) (r c : Nat) : Option Int :=
  (rep.get? r).bind fun rowEntries => rowEntries.get? c

/-- Models `Grid.set_tiles`.  The source indexes `rep[row][col]` for every
in-range position and rebuilds `self.tiles` from scratch, creating a
`Tile(self, row, col, value=val)` for each non-zero entry and performing
no validation of the values.  A missing entry raises (`none`); otherwise
the call returns normally.  Created tiles get the fresh ids
`r * cols + c` (all distinct, and the whole previous population is
discarded, so ids stay unique). -/
def Grid.set_tiles (g : Grid) (rep : List (List Int)) : Option Grid :=
  if (List.range g.rows).all (fun r =>
       (List.range g.cols).all fun c => (getRep rep r c).isSome) then
    some { g with tiles := fun r c =>
      if 0 ≤ r ∧ r < (g.rows : Int) ∧ 0 ≤ c ∧ c < (g.cols : Int) then
        match getRep rep r.toNat c.toNat with
        | some v =>
            if v = 0 then none
            else some { id := r.toNat * g.cols + c.toNat, row := r, col := c, value := v }
        | none => none
      else none }
  else none

/-- Models `Grid.score`: returns the `sum` field. -/
def Grid.score (g : Grid) : Int := g.sum

/-- Single-cell update of the cell array, `self.tiles[row][col] = v`. -/
def Grid.setTile (g : Grid) (r c : Int) (v : Option Tile) : Grid :=
  { g with tiles := fun r' c' => if r' = r ∧ c' = c then v else g.tiles r' c' }

/-- The `candidates` list built by `Grid.find_empty`: all empty positions
in row-major order. -/
def Grid.empty_cells (g : Grid) : List (Int × Int) :=
  (List.range g.rows).flatMap fun (r : Nat) =>
    (List.range g.cols).filterMap fun (c : Nat) =>
      match g.tiles (r : Int) (c : Int) with
      | none => some ((r : Int), (c : Int))
      | some _ => none

/-- Models `Grid.find_empty`; `random.choice(candidates)` is modelled as
indexing by `k % length` (a uniform draw is `k < length`), and the empty
candidate list yields `None`. -/
def Grid.find_empty (g : Grid) (k : Nat) : Option (Int × Int) :=
  g.empty_cells.get? (k % g.empty_cells.length)

/-- All tile ids present on the grid (in-range cells only). -/
def Grid.tile_ids (g : Grid) : List Nat :=
  (List.range g.rows).flatMap fun (r : Nat) =>
    (List.range g.cols).filterMap fun (c : Nat) =>
      (g.tiles (r : Int) (c : Int)).map Tile.id

/-- A fresh id for a newly constructed tile: larger than every id on the
grid (models allocation of a new Python object). -/
def Grid.fresh_id (g : Grid) : Nat :=
  g.tile_ids.foldr Nat.max 0 + 1

/-- Models `Grid.place_tile`.  `assert spot is not None` failing is the
`none` result; `d` is the `random.randint(1, 10)` draw, so the tile value
is 4 exactly when `d = 4` and 2 otherwise. -/
def Grid.place_tile (g : Grid) (k d : Nat) : Option Grid :=
  match g.find_empty k with
  | none => none
  | some (r, c) =>
      let t : Tile :=
        { id := g.fresh_id, row := r, col := c, value := if d = 4 then 4 else 2 }
      some (g.setTile r c (some t))

/-- Models `Tile.merge`: the absorbing tile's value becomes the sum; its
position fields are untouched.  (`other.remove()` only notifies the
view.) -/
def Tile.merge (t other : Tile) : Tile :=
  { t with value := t.value + other.value }

/-- Models `Tile.move`: clear the old cell, update the tile's position,
store it at the new cell. -/
def Tile.move (t : Tile) (g : Grid) (r c : Int) : Grid × Tile :=
  let g1 := g.setTile t.row t.col none
  let t' : Tile := { t with row := r, col := c }
  (g1.setTile r c (some t'), t')

/-- Ghost record of one merge performed during a slide: the absorbing
tile's state just before the merge, and the absorbed tile. -/
structure MergeRec where
  absorber : Tile
  absorbed : Tile
deriving DecidableEq, Repr

/-- The loop of `Tile.slide`, with fuel (`none` = fuel ran out) and a
ghost log of the merges performed.  Each iteration probes the next cell
along the movement vector (`trial_x = row + dy`, `trial_y = col + dx`):
out of bounds stops; an empty cell moves the tile and continues; an
equal-valued tile merges (value sum, move into the cell, `sum +=
self.value` with the post-merge value) and then CONTINUES probing, as the
source comment "Matching tile, merge and continue" says; a
different-valued tile stops. -/
def slideLoop (fuel : Nat) (g : Grid) (t : Tile) (dx dy : Int) (row col : Int) :
    Option (Grid × Tile × List MergeRec) :=
  match fuel with
  | 0 => none
  | Nat.succ f =>
    let tx := row + dy
    let ty := col + dx
    if g.in_bounds tx ty then
      match g.tiles tx ty with
      | none =>
          let p := t.move g tx ty
          slideLoop f p.1 p.2 dx dy tx ty
      | some other =>
          if other.value = t.value then
            let t1 := t.merge other
            let p := t1.move g tx ty
            let g2 := { p.1 with sum := p.1.sum + p.2.value }
            match slideLoop f g2 p.2 dx dy tx ty with
            | none => none
            | some (g3, t3, log) =>
                some (g3, t3, { absorber := t, absorbed := other } :: log)
          else some (g, t, [])
    else some (g, t, [])

/-- Models `Tile.slide` for tile `t` on grid `g` with movement vector
`(dx, dy)`; fuel `rows + cols` is proved sufficient for the vectors the
moves use. -/
def Tile.slide (t : Tile) (g : Grid) (dx dy : Int) : Grid × Tile :=
  match slideLoop (g.rows + g.cols) g t dx dy t.row t.col with
  | some (g1, t1, _) => (g1, t1)
  | none => (g, t)

/-- Same as `Tile.slide` but returning the ghost merge log. -/
def Tile.slideLog (t : Tile) (g : Grid) (dx dy : Int) : Grid × List MergeRec :=
  match slideLoop (g.rows + g.cols) g t dx dy t.row t.col with
  | some (g1, _, log) => (g1, log)
  | none => (g, [])

/-- One directional pass: visit the given positions in order; at each,
read the current cell and slide its tile if occupied (`if col:` in the
source).  Python iterates over the live lists by index, and every slide
moves a tile only to already-visited positions, so this position-ordered
fold is exactly the source's iteration. -/
def Grid.slideAll (g : Grid) (ps : List (Int × Int)) (dx dy : Int) : Grid :=
  ps.foldl (fun h p =>
    match h.tiles p.1 p.2 with
    | none => h
    | some t => (t.slide h dx dy).1) g

/-- `Grid.slideAll` with the ghost merge logs concatenated. -/
def Grid.slideAllLog (g : Grid) (ps : List (Int × Int)) (dx dy : Int) :
    Grid × List MergeRec :=
  ps.foldl (fun acc p =>
    match acc.1.tiles p.1 p.2 with
    | none => acc
    | some t =>
        let r := t.slideLog acc.1 dx dy
        (r.1, acc.2 ++ r.2)) (g, [])

/-- Row/column indices in ascending order, as `Int`. -/
def ascend (n : Nat) : List Int :=
  (List.range n).map fun (i : Nat) => (i : Int)

/-- Visitation order of `Grid.left`: rows ascending, columns ascending. -/
def Grid.posLeft (g : Grid) : List (Int × Int) :=
  (ascend g.rows).flatMap fun r => (ascend g.cols).map fun c => (r, c)

/-- Visitation order of `Grid.right`: rows ascending, columns descending
(`reversed(row)`). -/
def Grid.posRight (g : Grid) : List (Int × Int) :=
  (ascend g.rows).flatMap fun r => (ascend g.cols).reverse.map fun c => (r, c)

/-- Visitation order of `Grid.up`: rows ascending, columns ascending. -/
def Grid.posUp (g : Grid) : List (Int × Int) :=
  (ascend g.rows).flatMap fun r => (ascend g.cols).map fun c => (r, c)

/-- Visitation order of `Grid.down`: rows descending
(`reversed(self.tiles)`), columns ascending. -/
def Grid.posDown (g : Grid) : List (Int × Int) :=
  (ascend g.rows).reverse.flatMap fun r => (ascend g.cols).map fun c => (r, c)

/-- Models `Grid.left`: `movement_vector = [-1, 0]`. -/
def Grid.left (g : Grid) : Grid := g.slideAll g.posLeft (-1) 0

/-- Models `Grid.right`: `movement_vector = [1, 0]`. -/
def Grid.right (g : Grid) : Grid := g.slideAll g.posRight 1 0

/-- Models `Grid.up`: `movement_vector = [0, -1]`. -/
def Grid.up (g : Grid) : Grid := g.slideAll g.posUp 0 (-1)

/-- Models `Grid.down`: `movement_vector = [0, 1]`. -/
def Grid.down (g : Grid) : Grid := g.slideAll g.posDown 0 1

/-- The four directional commands. -/
inductive Dir where
  | left
  | right
  | up
  | down
deriving DecidableEq, Repr

/-- Dispatch a directional command to the corresponding move. -/
def Grid.moveDir (g : Grid) : Dir → Grid
  | Dir.left => g.left
  | Dir.right => g.right
  | Dir.up => g.up
  | Dir.down => g.down

/-- Ghost merge log of one full move. -/
def Grid.moveLogDir (g : Grid) : Dir → List MergeRec
  | Dir.left => (g.slideAllLog g.posLeft (-1) 0).2
  | Dir.right => (g.slideAllLog g.posRight 1 0).2
  | Dir.up => (g.slideAllLog g.posUp 0 (-1)).2
  | Dir.down => (g.slideAllLog g.posDown 0 1).2

/-- Apply a sequence of directional moves. -/
def applyMoves (ds : List Dir) (g : Grid) : Grid :=
  ds.foldl Grid.moveDir g

/-- Modelled from the spec: the slide loop as section 4.2 of the spec
describes it, identical to `slideLoop` except that after a merge
"sliding stops (a tile merges at most once per move)".  Used only to
compare the spec's description against the source behaviour. -/
def slideLoopStop (fuel : Nat) (g : Grid) (t : Tile) (dx dy : Int) (row col : Int) :
    Option (Grid × Tile) :=
  match fuel with
  | 0 => none
  | Nat.succ f =>
    let tx := row + dy
    let ty := col + dx
    if g.in_bounds tx ty then
      match g.tiles tx ty with
      | none =>
          let p := t.move g tx ty
          slideLoopStop f p.1 p.2 dx dy tx ty
      | some other =>
          if other.value = t.value then
            let t1 := t.merge other
            let p := t1.move g tx ty
            some ({ p.1 with sum := p.1.sum + p.2.value }, p.2)
          else some (g, t)
    else some (g, t)

/-- Modelled from the spec: `Tile.slide` with the stop-at-merge rule. -/
def Tile.slideStop (t : Tile) (g : Grid) (dx dy : Int) : Grid × Tile :=
  match slideLoopStop (g.rows + g.cols) g t dx dy t.row t.col with
  | some (g1, t1) => (g1, t1)
  | none => (g, t)

/-- Modelled from the spec: a directional pass with the stop-at-merge
slide. -/
def Grid.slideAllStop (g : Grid) (ps : List (Int × Int)) (dx dy : Int) : Grid :=
  ps.foldl (fun h p =>
    match h.tiles p.1 p.2 with
    | none => h
    | some t => (t.slideStop h dx dy).1) g

/-- Modelled from the spec: `Grid.left` with the stop-at-merge slide. -/
def Grid.leftStop (g : Grid) : Grid := g.slideAllStop g.posLeft (-1) 0

/-- Boolean check of the position invariant: every in-range occupied
cell's tile carries that cell's coordinates (spec section 3). -/
def Grid.coherentB (g : Grid) : Bool :=
  (List.range g.rows).all fun r =>
    (List.range g.cols).all fun c =>
      match g.tiles (r : Int) (c : Int) with
      | none => true
      | some t => decide (t.row = (r : Int)) && decide (t.col = (c : Int))

/-- The position invariant as a proposition (decidable by evaluation). -/
def Grid.Coherent (g : Grid) : Prop := g.coherentB = true

/-- Boolean check that no tile id occurs in two different in-range
cells (a tile is never referenced by two cells, spec section 3). -/
def Grid.distinctB (g : Grid) : Bool :=
  (List.range g.rows).all fun r1 =>
    (List.range g.cols).all fun c1 =>
      (List.range g.rows).all fun r2 =>
        (List.range g.cols).all fun c2 =>
          match g.tiles (r1 : Int) (c1 : Int), g.tiles (r2 : Int) (c2 : Int) with
          | some t1, some t2 =>
              decide (t1.id = t2.id → (r1 = r2 ∧ c1 = c2))
          | _, _ => true

/-- Distinct-identity invariant as a proposition. -/
def Grid.DistinctIds (g : Grid) : Prop := g.distinctB = true

/-- Boolean check that every tile on the grid has positive value. -/
def Grid.allPosB (g : Grid) : Bool :=
  (List.range g.rows).all fun r =>
    (List.range g.cols).all fun c =>
      match g.tiles (r : Int) (c : Int) with
      | none => true
      | some t => decide (0 < t.value)

/-- Positivity invariant as a proposition. -/
def Grid.AllPos (g : Grid) : Prop := g.allPosB = true

/-- Total value of all tiles on the board. -/
def Grid.total (g : Grid) : Int :=
  Finset.sum (Finset.product (Finset.range g.rows) (Finset.range g.cols))
    fun p => tileVal (g.tiles (p.1 : Int) (p.2 : Int))

/-- Combined value credited to the score by the merges of a log. -/
def mergeTotal (log : List MergeRec) : Int :=
  (log.map fun rec => rec.absorber.value + rec.absorbed.value).sum

/-- The movement vectors the four moves pass to `Tile.slide`. -/
def isUnit (dx dy : Int) : Prop :=
  (dx = -1 ∧ dy = 0) ∨ (dx = 1 ∧ dy = 0) ∨ (dx = 0 ∧ dy = -1) ∨ (dx = 0 ∧ dy = 1)

/-- Section 8 scenario matrix: two 2-tiles in the first row. -/
def rep22 : List (List Int) :=
  [[2, 2, 0, 0], [0, 0, 0, 0], [0, 0, 0, 0], [0, 0, 0, 0]]

/-- Section 8 scenario grid, loaded through `set_tiles`. -/
def g22 : Grid := (Grid.init.set_tiles rep22).getD Grid.init

/-- Matrix on which a left move lets one tile merge twice. -/
def rep4220 : List (List Int) :=
  [[4, 2, 2, 0], [0, 0, 0, 0], [0, 0, 0, 0], [0, 0, 0, 0]]

/-- Grid on which a left move lets one tile merge twice. -/
def g4220 : Grid := (Grid.init.set_tiles rep4220).getD Grid.init

/-- Matrix with a non-zero entry that is not a power of two. -/
def rep3 : List (List Int) :=
  [[3, 0, 0, 0], [0, 0, 0, 0], [0, 0, 0, 0], [0, 0, 0, 0]]

/-- A full grid (no empty cell, no equal adjacent pair). -/
def repFull : List (List Int) :=
  [[2, 4, 2, 4], [4, 2, 4, 2], [2, 4, 2, 4], [4, 2, 4, 2]]

/-- The full grid, loaded through `set_tiles`. -/
def gFull : Grid := (Grid.init.set_tiles repFull).getD Grid.init

instance (g : Grid) : Decidable g.Coherent :=
  inferInstanceAs (Decidable (g.coherentB = true))

instance (g : Grid) : Decidable g.DistinctIds :=
  inferInstanceAs (Decidable (g.distinctB = true))

instance (g : Grid) : Decidable g.AllPos :=
  inferInstanceAs (Decidable (g.allPosB = true))

/-- The step function of `Grid.slideAllLog`, named for proofs. -/
def stepLog (dx dy : Int) (acc : Grid × List MergeRec) (p : Int × Int) :
    Grid × List MergeRec :=
  match acc.1.tiles p.1 p.2 with
  | none => acc
  | some t => ((t.slideLog acc.1 dx dy).1, acc.2 ++ (t.slideLog acc.1 dx dy).2)

/-- Number of cells between the probe position and the wall the movement
vector points at; each continuing loop iteration decreases it. -/
def distWall (g : Grid) (dx dy row col : Int) : Nat :=
  if dx = -1 then col.toNat
  else if dx = 1 then ((g.cols : Int) - 1 - col).toNat
  else if dy = -1 then row.toNat
  else ((g.rows : Int) - 1 - row).toNat

/-- The tile initially at row 0, column 2 of `g4220`. -/
def t022 : Tile := { id := 2, row := 0, col := 2, value := 2 }

/-- The first merge record of the left move on `g4220`. -/
def rec0 : MergeRec :=
  { absorber := { id := 2, row := 0, col := 2, value := 2 },
    absorbed := { id := 1, row := 0, col := 1, value := 2 } }

lemma Grid.in_bounds_iff (g : Grid) (r c : Int) :
    g.in_bounds r c = true ↔
      0 ≤ r ∧ r < (g.rows : Int) ∧ 0 ≤ c ∧ c < (g.cols : Int) := by
  simp [Grid.in_bounds]

lemma Grid.setTile_tiles (g : Grid) (r c : Int) (v : Option Tile) (r' c' : Int) :
    (g.setTile r c v).tiles r' c' = if r' = r ∧ c' = c then v else g.tiles r' c' := rfl

lemma Grid.setTile_sum (g : Grid) (r c : Int) (v : Option Tile) :
    (g.setTile r c v).sum = g.sum := rfl

lemma Grid.setTile_rows (g : Grid) (r c : Int) (v : Option Tile) :
    (g.setTile r c v).rows = g.rows := rfl

lemma Grid.setTile_cols (g : Grid) (r c : Int) (v : Option Tile) :
    (g.setTile r c v).cols = g.cols := rfl

lemma Grid.setTile_in_bounds (g : Grid) (r c : Int) (v : Option Tile) (r' c' : Int) :
    (g.setTile r c v).in_bounds r' c' = g.in_bounds r' c' := rfl

lemma Tile.move_snd (t : Tile) (g : Grid) (r c : Int) :
    (t.move g r c).2 = { t with row := r, col := c } := rfl

lemma Tile.move_tiles (t : Tile) (g : Grid) (r c : Int) (r' c' : Int) :
    ((t.move g r c).1).tiles r' c' =
      if r' = r ∧ c' = c then some { t with row := r, col := c }
      else if r' = t.row ∧ c' = t.col then none
      else g.tiles r' c' := rfl

lemma Tile.move_sum (t : Tile) (g : Grid) (r c : Int) :
    ((t.move g r c).1).sum = g.sum := rfl

lemma Tile.move_rows (t : Tile) (g : Grid) (r c : Int) :
    ((t.move g r c).1).rows = g.rows := rfl

lemma Tile.move_cols (t : Tile) (g : Grid) (r c : Int) :
    ((t.move g r c).1).cols = g.cols := rfl

lemma Tile.move_in_bounds (t : Tile) (g : Grid) (r c : Int) (r' c' : Int) :
    ((t.move g r c).1).in_bounds r' c' = g.in_bounds r' c' := rfl

lemma Grid.coherent_iff (g : Grid) :
    g.Coherent ↔ ∀ r c : Int, g.in_bounds r c = true →
      ∀ t, g.tiles r c = some t → t.row = r ∧ t.col = c := by
  unfold Grid.Coherent Grid.coherentB
  rw [List.all_eq_true]
  constructor
  · intro h r c hin t ht
    rw [g.in_bounds_iff] at hin
    obtain ⟨h1, h2, h3, h4⟩ := hin
    have hr : r.toNat < g.rows := by omega
    have hc : c.toNat < g.cols := by omega
    have h5 := h r.toNat (List.mem_range.mpr hr)
    rw [List.all_eq_true] at h5
    have h6 := h5 c.toNat (List.mem_range.mpr hc)
    rw [Int.toNat_of_nonneg h1, Int.toNat_of_nonneg h3, ht] at h6
    simp only [Bool.and_eq_true, decide_eq_true_eq] at h6
    exact h6
  · intro h r hr
    rw [List.all_eq_true]
    intro c hc
    rw [List.mem_range] at hr hc
    cases hmat : g.tiles (r : Int) (c : Int) with
    | none => simp [hmat]
    | some t =>
        have hin : g.in_bounds (r : Int) (c : Int) = true := by
          rw [g.in_bounds_iff]
          constructor
          · exact Int.natCast_nonneg r
          refine ⟨by exact_mod_cast hr, Int.natCast_nonneg c, by exact_mod_cast hc⟩
        have := h (r : Int) (c : Int) hin t hmat
        simp [hmat, this.1, this.2]

lemma Grid.allPos_iff (g : Grid) :
    g.AllPos ↔ ∀ r c : Int, g.in_bounds r c = true →
      ∀ t, g.tiles r c = some t → 0 < t.value := by
  unfold Grid.AllPos Grid.allPosB
  rw [List.all_eq_true]
  constructor
  · intro h r c hin t ht
    rw [g.in_bounds_iff] at hin
    obtain ⟨h1, h2, h3, h4⟩ := hin
    have hr : r.toNat < g.rows := by omega
    have hc : c.toNat < g.cols := by omega
    have h5 := h r.toNat (List.mem_range.mpr hr)
    rw [List.all_eq_true] at h5
    have h6 := h5 c.toNat (List.mem_range.mpr hc)
    rw [Int.toNat_of_nonneg h1, Int.toNat_of_nonneg h3, ht] at h6
    simpa using h6
  · intro h r hr
    rw [List.all_eq_true]
    intro c hc
    rw [List.mem_range] at hr hc
    cases hmat : g.tiles (r : Int) (c : Int) with
    | none => simp [hmat]
    | some t =>
        have hin : g.in_bounds (r : Int) (c : Int) = true := by
          rw [g.in_bounds_iff]
          exact ⟨Int.natCast_nonneg r, by exact_mod_cast hr,
            Int.natCast_nonneg c, by exact_mod_cast hc⟩
        have := h (r : Int) (c : Int) hin t hmat
        simp [hmat, this]

lemma Grid.distinct_iff (g : Grid) :
    g.DistinctIds ↔ ∀ r1 c1 r2 c2 : Int,
      g.in_bounds r1 c1 = true → g.in_bounds r2 c2 = true →
      ∀ t1 t2, g.tiles r1 c1 = some t1 → g.tiles r2 c2 = some t2 →
      t1.id = t2.id → r1 = r2 ∧ c1 = c2 := by
  unfold Grid.DistinctIds Grid.distinctB
  constructor
  · intro h r1 c1 r2 c2 hin1 hin2 t1 t2 ht1 ht2 hid
    rw [g.in_bounds_iff] at hin1 hin2
    obtain ⟨a1, a2, a3, a4⟩ := hin1
    obtain ⟨b1, b2, b3, b4⟩ := hin2
    rw [List.all_eq_true] at h
    have h5 := h r1.toNat (List.mem_range.mpr (by omega))
    rw [List.all_eq_true] at h5
    have h6 := h5 c1.toNat (List.mem_range.mpr (by omega))
    rw [List.all_eq_true] at h6
    have h7 := h6 r2.toNat (List.mem_range.mpr (by omega))
    rw [List.all_eq_true] at h7
    have h8 := h7 c2.toNat (List.mem_range.mpr (by omega))
    rw [Int.toNat_of_nonneg a1, Int.toNat_of_nonneg a3,
      Int.toNat_of_nonneg b1, Int.toNat_of_nonneg b3, ht1, ht2] at h8
    simp only [decide_eq_true_eq] at h8
    have h9 := h8 hid
    omega
  · intro h
    rw [List.all_eq_true]
    intro r1 hr1
    rw [List.all_eq_true]
    intro c1 hc1
    rw [List.all_eq_true]
    intro r2 hr2
    rw [List.all_eq_true]
    intro c2 hc2
    rw [List.mem_range] at hr1 hc1 hr2 hc2
    cases h1 : g.tiles (r1 : Int) (c1 : Int) with
    | none => simp [h1]
    | some t1 =>
        cases h2 : g.tiles (r2 : Int) (c2 : Int) with
        | none => simp [h1, h2]
        | some t2 =>
            have hin1 : g.in_bounds (r1 : Int) (c1 : Int) = true := by
              rw [g.in_bounds_iff]
              exact ⟨Int.natCast_nonneg r1, by exact_mod_cast hr1,
                Int.natCast_nonneg c1, by exact_mod_cast hc1⟩
            have hin2 : g.in_bounds (r2 : Int) (c2 : Int) = true := by
              rw [g.in_bounds_iff]
              exact ⟨Int.natCast_nonneg r2, by exact_mod_cast hr2,
                Int.natCast_nonneg c2, by exact_mod_cast hc2⟩
            simp only [h1, h2, decide_eq_true_eq]
            intro hid
            have := h (r1 : Int) (c1 : Int) (r2 : Int) (c2 : Int) hin1 hin2 t1 t2 h1 h2 hid
            omega

lemma Grid.mem_empty_cells (g : Grid) (p : Int × Int) :
    p ∈ g.empty_cells ↔
      g.in_bounds p.1 p.2 = true ∧ g.tiles p.1 p.2 = none := by
  unfold Grid.empty_cells
  rw [List.mem_flatMap]
  constructor
  · rintro ⟨r, hr, hmem⟩
    rw [List.mem_range] at hr
    rw [List.mem_filterMap] at hmem
    obtain ⟨c, hc, hfc⟩ := hmem
    rw [List.mem_range] at hc
    cases hmat : g.tiles (r : Int) (c : Int) with
    | none =>
        rw [hmat] at hfc
        cases hfc
        refine ⟨?_, hmat⟩
        rw [g.in_bounds_iff]
        show 0 ≤ (r : Int) ∧ (r : Int) < (g.rows : Int) ∧
          0 ≤ (c : Int) ∧ (c : Int) < (g.cols : Int)
        omega
    | some t => rw [hmat] at hfc; cases hfc
  · rintro ⟨hin, hnone⟩
    rw [g.in_bounds_iff] at hin
    obtain ⟨h1, h2, h3, h4⟩ := hin
    refine ⟨p.1.toNat, List.mem_range.mpr (by omega), ?_⟩
    rw [List.mem_filterMap]
    refine ⟨p.2.toNat, List.mem_range.mpr (by omega), ?_⟩
    rw [Int.toNat_of_nonneg h1, Int.toNat_of_nonneg h3, hnone]

lemma Grid.empty_cells_nodup (g : Grid) : g.empty_cells.Nodup := by
  unfold Grid.empty_cells
  rw [List.nodup_flatMap]
  constructor
  · intro r _
    apply List.Nodup.filterMap
    · intro c c' p hp hp'
      cases hmat : g.tiles (r : Int) (c : Int) with
      | some t => rw [hmat] at hp; cases hp
      | none =>
          rw [hmat] at hp
          cases hmat' : g.tiles (r : Int) (c' : Int) with
          | some t => rw [hmat'] at hp'; cases hp'
          | none =>
              rw [hmat'] at hp'
              rw [Option.mem_def, Option.some_inj] at hp hp'
              have hcc : ((c : Int)) = ((c' : Int)) :=
                congrArg Prod.snd (hp.trans hp'.symm)
              exact Nat.cast_injective hcc
    · exact List.nodup_range g.cols
  · have hpl : (List.range g.rows).Pairwise (· < ·) := List.pairwise_lt_range g.rows
    refine hpl.imp ?_
    intro r1 r2 hlt p hp1 hp2
    rw [List.mem_filterMap] at hp1 hp2
    obtain ⟨c1, _, hf1⟩ := hp1
    obtain ⟨c2, _, hf2⟩ := hp2
    have e1 : p.1 = (r1 : Int) := by
      cases hmat : g.tiles (r1 : Int) (c1 : Int) with
      | none => rw [hmat] at hf1; cases hf1; rfl
      | some t => rw [hmat] at hf1; cases hf1
    have e2 : p.1 = (r2 : Int) := by
      cases hmat : g.tiles (r2 : Int) (c2 : Int) with
      | none => rw [hmat] at hf2; cases hf2; rfl
      | some t => rw [hmat] at hf2; cases hf2
    have e3 : (r1 : Int) = (r2 : Int) := e1.symm.trans e2
    have e4 : r1 = r2 := Nat.cast_injective e3
    omega

lemma Grid.mem_tile_ids (g : Grid) (i : Nat) :
    i ∈ g.tile_ids ↔ ∃ r c : Int, g.in_bounds r c = true ∧
      ∃ t, g.tiles r c = some t ∧ t.id = i := by
  unfold Grid.tile_ids
  rw [List.mem_flatMap]
  constructor
  · rintro ⟨r, hr, hmem⟩
    rw [List.mem_range] at hr
    rw [List.mem_filterMap] at hmem
    obtain ⟨c, hc, hfc⟩ := hmem
    rw [List.mem_range] at hc
    rw [Option.map_eq_some'] at hfc
    obtain ⟨t, ht, hid⟩ := hfc
    refine ⟨(r : Int), (c : Int), ?_, t, ht, hid⟩
    rw [g.in_bounds_iff]
    omega
  · rintro ⟨r, c, hin, t, ht, hid⟩
    rw [g.in_bounds_iff] at hin
    obtain ⟨h1, h2, h3, h4⟩ := hin
    refine ⟨r.toNat, List.mem_range.mpr (by omega), ?_⟩
    rw [List.mem_filterMap]
    refine ⟨c.toNat, List.mem_range.mpr (by omega), ?_⟩
    rw [Int.toNat_of_nonneg h1, Int.toNat_of_nonneg h3, ht]
    simp [hid]

lemma sum_update_eq {s : Finset (Nat × Nat)} (f f' : Nat × Nat → Int) (p0 : Nat × Nat)
    (hp : p0 ∈ s) (hagree : ∀ p ∈ s, p ≠ p0 → f' p = f p) :
    s.sum f' = s.sum f - f p0 + f' p0 := by
  rw [← Finset.sum_erase_add s f' hp, ← Finset.sum_erase_add s f hp]
  have hs : (s.erase p0).sum f' = (s.erase p0).sum f :=
    Finset.sum_congr rfl fun p hpe =>
      hagree p (Finset.mem_of_mem_erase hpe) (Finset.ne_of_mem_erase hpe)
  rw [hs]
  ring

lemma Grid.total_setTile (g : Grid) (r c : Int) (v : Option Tile)
    (hin : g.in_bounds r c = true) :
    (g.setTile r c v).total = g.total - tileVal (g.tiles r c) + tileVal v := by
  have hb := (g.in_bounds_iff r c).mp hin
  have e1 : ((r.toNat : Nat) : Int) = r := Int.toNat_of_nonneg hb.1
  have e2 : ((c.toNat : Nat) : Int) = c := Int.toNat_of_nonneg hb.2.2.1
  have hmem : (r.toNat, c.toNat) ∈
      Finset.product (Finset.range g.rows) (Finset.range g.cols) :=
    Finset.mem_product.mpr
      ⟨Finset.mem_range.mpr (by omega), Finset.mem_range.mpr (by omega)⟩
  have hagree : ∀ p ∈ Finset.product (Finset.range g.rows) (Finset.range g.cols),
      p ≠ (r.toNat, c.toNat) →
      tileVal ((g.setTile r c v).tiles (p.1 : Int) (p.2 : Int)) =
        tileVal (g.tiles (p.1 : Int) (p.2 : Int)) := by
    intro p _ hne
    rw [Grid.setTile_tiles, if_neg]
    rintro ⟨f1, f2⟩
    apply hne
    have a1 : p.1 = r.toNat := by omega
    have a2 : p.2 = c.toNat := by omega
    exact Prod.ext_iff.mpr ⟨a1, a2⟩
  have key : (Finset.product (Finset.range g.rows) (Finset.range g.cols)).sum
        (fun p => tileVal ((g.setTile r c v).tiles (p.1 : Int) (p.2 : Int))) =
      (Finset.product (Finset.range g.rows) (Finset.range g.cols)).sum
        (fun p => tileVal (g.tiles (p.1 : Int) (p.2 : Int)))
      - tileVal (g.tiles ((r.toNat : Nat) : Int) ((c.toNat : Nat) : Int))
      + tileVal ((g.setTile r c v).tiles ((r.toNat : Nat) : Int) ((c.toNat : Nat) : Int)) :=
    sum_update_eq _ _ _ hmem hagree
  rw [e1, e2] at key
  unfold Grid.total
  rw [Grid.setTile_rows, Grid.setTile_cols]
  rw [key, Grid.setTile_tiles, if_pos ⟨rfl, rfl⟩]

lemma Tile.move_coherent (t : Tile) (g : Grid) (r c : Int) (hc : g.Coherent) :
    ((t.move g r c).1).Coherent := by
  rw [Grid.coherent_iff] at hc ⊢
  intro a b hin u hu
  rw [Tile.move_in_bounds] at hin
  rw [Tile.move_tiles] at hu
  by_cases h1 : a = r ∧ b = c
  · obtain ⟨ha, hb⟩ := h1
    subst ha
    subst hb
    rw [if_pos ⟨rfl, rfl⟩] at hu
    cases hu
    exact ⟨rfl, rfl⟩
  · rw [if_neg h1] at hu
    by_cases h2 : a = t.row ∧ b = t.col
    · rw [if_pos h2] at hu
      cases hu
    · rw [if_neg h2] at hu
      exact hc a b hin u hu

lemma Tile.move_allPos (t : Tile) (g : Grid) (r c : Int) (hp : g.AllPos)
    (hv : 0 < t.value) : ((t.move g r c).1).AllPos := by
  rw [Grid.allPos_iff] at hp ⊢
  intro a b hin u hu
  rw [Tile.move_in_bounds] at hin
  rw [Tile.move_tiles] at hu
  by_cases h1 : a = r ∧ b = c
  · rw [if_pos h1] at hu
    cases hu
    exact hv
  · rw [if_neg h1] at hu
    by_cases h2 : a = t.row ∧ b = t.col
    · rw [if_pos h2] at hu
      cases hu
    · rw [if_neg h2] at hu
      exact hp a b hin u hu

lemma Tile.move_distinct (t u : Tile) (g : Grid) (r c : Int) (hd : g.DistinctIds)
    (hcell : g.tiles t.row t.col = some u) (hidu : u.id = t.id)
    (hin_old : g.in_bounds t.row t.col = true) :
    ((t.move g r c).1).DistinctIds := by
  rw [Grid.distinct_iff] at hd ⊢
  intro r1 c1 r2 c2 hin1 hin2 u1 u2 h1 h2 hid
  rw [Tile.move_in_bounds] at hin1 hin2
  rw [Tile.move_tiles] at h1 h2
  by_cases e1 : r1 = r ∧ c1 = c
  · rw [if_pos e1] at h1
    cases h1
    by_cases e2 : r2 = r ∧ c2 = c
    · exact ⟨e1.1.trans e2.1.symm, e1.2.trans e2.2.symm⟩
    · rw [if_neg e2] at h2
      by_cases e3 : r2 = t.row ∧ c2 = t.col
      · rw [if_pos e3] at h2
        cases h2
      · rw [if_neg e3] at h2
        have hid' : u.id = u2.id := by
          rw [hidu]
          exact hid
        have := hd t.row t.col r2 c2 hin_old hin2 u u2 hcell h2 hid'
        exact absurd ⟨this.1.symm, this.2.symm⟩ e3
  · rw [if_neg e1] at h1
    by_cases e3 : r1 = t.row ∧ c1 = t.col
    · rw [if_pos e3] at h1
      cases h1
    · rw [if_neg e3] at h1
      by_cases e2 : r2 = r ∧ c2 = c
      · rw [if_pos e2] at h2
        cases h2
        have hid' : u1.id = u.id := by
          rw [hidu]
          exact hid
        have := hd r1 c1 t.row t.col hin1 hin_old u1 u h1 hcell hid'
        exact absurd ⟨this.1, this.2⟩ e3
      · rw [if_neg e2] at h2
        by_cases e4 : r2 = t.row ∧ c2 = t.col
        · rw [if_pos e4] at h2
          cases h2
        · rw [if_neg e4] at h2
          exact hd r1 c1 r2 c2 hin1 hin2 u1 u2 h1 h2 hid

lemma Tile.move_ids (t : Tile) (g : Grid) (r c : Int) (i : Nat)
    (hi : i ∈ ((t.move g r c).1).tile_ids) : i = t.id ∨ i ∈ g.tile_ids := by
  rw [Grid.mem_tile_ids] at hi
  obtain ⟨a, b, hin, u, hu, hid⟩ := hi
  rw [Tile.move_in_bounds] at hin
  rw [Tile.move_tiles] at hu
  by_cases h1 : a = r ∧ b = c
  · rw [if_pos h1] at hu
    cases hu
    left
    exact hid.symm ▸ rfl
  · rw [if_neg h1] at hu
    by_cases h2 : a = t.row ∧ b = t.col
    · rw [if_pos h2] at hu
      cases hu
    · rw [if_neg h2] at hu
      right
      rw [Grid.mem_tile_ids]
      exact ⟨a, b, hin, u, hu, hid⟩

lemma Tile.id_mem_tile_ids (t : Tile) (g : Grid)
    (hcell : g.tiles t.row t.col = some t)
    (hin : g.in_bounds t.row t.col = true) : t.id ∈ g.tile_ids :=
  (g.mem_tile_ids t.id).mpr ⟨t.row, t.col, hin, t, hcell, rfl⟩

lemma Tile.move_notin_ids (t other : Tile) (g : Grid) (r c : Int)
    (hd : g.DistinctIds)
    (hother : g.tiles r c = some other)
    (hin_new : g.in_bounds r c = true)
    (hne : t.id ≠ other.id) :
    other.id ∉ ((t.move g r c).1).tile_ids := by
  intro hmem
  rw [Grid.mem_tile_ids] at hmem
  obtain ⟨a, b, hin, u, hu, hid⟩ := hmem
  rw [Tile.move_in_bounds] at hin
  rw [Tile.move_tiles] at hu
  by_cases h1 : a = r ∧ b = c
  · rw [if_pos h1] at hu
    cases hu
    exact hne hid
  · rw [if_neg h1] at hu
    by_cases h2 : a = t.row ∧ b = t.col
    · rw [if_pos h2] at hu
      cases hu
    · rw [if_neg h2] at hu
      rw [Grid.distinct_iff] at hd
      have := hd a b r c hin hin_new u other hu hother hid
      exact h1 ⟨this.1, this.2⟩

lemma Tile.move_total (t : Tile) (g : Grid) (r c : Int)
    (hin_old : g.in_bounds t.row t.col = true)
    (hin_new : g.in_bounds r c = true)
    (hne : ¬(r = t.row ∧ c = t.col)) :
    ((t.move g r c).1).total =
      g.total - tileVal (g.tiles t.row t.col) - tileVal (g.tiles r c) + t.value := by
  have h1 : (g.setTile t.row t.col none).total =
      g.total - tileVal (g.tiles t.row t.col) := by
    rw [Grid.total_setTile g t.row t.col none hin_old]
    simp [tileVal]
  have hin_new' : (g.setTile t.row t.col none).in_bounds r c = true := hin_new
  have h3 : (g.setTile t.row t.col none).tiles r c = g.tiles r c := by
    rw [Grid.setTile_tiles, if_neg hne]
  have h2 : ((g.setTile t.row t.col none).setTile r c
        (some { t with row := r, col := c })).total =
      (g.setTile t.row t.col none).total -
        tileVal ((g.setTile t.row t.col none).tiles r c) +
        tileVal (some { t with row := r, col := c }) :=
    Grid.total_setTile _ r c _ hin_new'
  show ((g.setTile t.row t.col none).setTile r c
    (some { t with row := r, col := c })).total = _
  rw [h2, h3, h1]
  show _ - _ - _ + t.value = _
  ring

lemma isUnit_trial_ne (dx dy : Int) (hv : isUnit dx dy) (row col : Int) :
    ¬(row + dy = row ∧ col + dx = col) := by
  rintro ⟨e1, e2⟩
  rcases hv with ⟨h1, h2⟩ | ⟨h1, h2⟩ | ⟨h1, h2⟩ | ⟨h1, h2⟩ <;> omega

lemma slideLoop_basic (fuel : Nat) (g : Grid) (t : Tile) (dx dy : Int)
    (g' : Grid) (t' : Tile) (log : List MergeRec)
    (hv : isUnit dx dy) (hc : g.Coherent)
    (hin : g.in_bounds t.row t.col = true)
    (hcell : g.tiles t.row t.col = some t)
    (heq : slideLoop fuel g t dx dy t.row t.col = some (g', t', log)) :
    g'.rows = g.rows ∧ g'.cols = g.cols ∧ g'.total = g.total ∧ g'.Coherent ∧
    g'.tiles t'.row t'.col = some t' ∧ g'.in_bounds t'.row t'.col = true ∧
    t'.id = t.id := by
  induction fuel generalizing g t g' t' log with
  | zero => exact absurd heq (by simp [slideLoop])
  | succ f ih =>
    rw [slideLoop] at heq
    simp only at heq
    by_cases hin2 : g.in_bounds (t.row + dy) (t.col + dx) = true
    · rw [if_pos hin2] at heq
      cases hmat : g.tiles (t.row + dy) (t.col + dx) with
      | none =>
          rw [hmat] at heq
          dsimp only at heq
          have hcell2 : ((t.move g (t.row + dy) (t.col + dx)).1).tiles
              ((t.move g (t.row + dy) (t.col + dx)).2).row
              ((t.move g (t.row + dy) (t.col + dx)).2).col =
              some ((t.move g (t.row + dy) (t.col + dx)).2) := by
            rw [Tile.move_snd, Tile.move_tiles]
            exact if_pos ⟨rfl, rfl⟩
          have hin2' : ((t.move g (t.row + dy) (t.col + dx)).1).in_bounds
              ((t.move g (t.row + dy) (t.col + dx)).2).row
              ((t.move g (t.row + dy) (t.col + dx)).2).col = true := hin2
          have IH := ih (t.move g (t.row + dy) (t.col + dx)).1
            (t.move g (t.row + dy) (t.col + dx)).2 g' t' log
            (t.move_coherent g (t.row + dy) (t.col + dx) hc) hin2' hcell2 heq
          obtain ⟨e1, e2, e3, e4, e5, e6, e7⟩ := IH
          have htot : ((t.move g (t.row + dy) (t.col + dx)).1).total = g.total := by
            rw [t.move_total g (t.row + dy) (t.col + dx) hin hin2
              (isUnit_trial_ne dx dy hv t.row t.col), hcell, hmat]
            show g.total - t.value - 0 + t.value = g.total
            ring
          exact ⟨e1, e2, e3.trans htot, e4, e5, e6, e7⟩
      | some other =>
          rw [hmat] at heq
          dsimp only at heq
          by_cases hval : other.value = t.value
          · rw [if_pos hval] at heq
            cases hrec : slideLoop f
                { ((t.merge other).move g (t.row + dy) (t.col + dx)).1 with
                  sum := ((t.merge other).move g (t.row + dy) (t.col + dx)).1.sum +
                    ((t.merge other).move g (t.row + dy) (t.col + dx)).2.value }
                ((t.merge other).move g (t.row + dy) (t.col + dx)).2 dx dy
                (t.row + dy) (t.col + dx) with
            | none => rw [hrec] at heq; cases heq
            | some trip =>
                obtain ⟨g3, t3, log3⟩ := trip
                rw [hrec] at heq
                dsimp only at heq
                injection heq with h1
                injection h1 with hg hrest
                injection hrest with ht hlog
                subst hg
                subst ht
                subst hlog
                have hcell2 : (({ ((t.merge other).move g (t.row + dy) (t.col + dx)).1 with
                    sum := ((t.merge other).move g (t.row + dy) (t.col + dx)).1.sum +
                      ((t.merge other).move g (t.row + dy) (t.col + dx)).2.value } : Grid)).tiles
                    (((t.merge other).move g (t.row + dy) (t.col + dx)).2).row
                    (((t.merge other).move g (t.row + dy) (t.col + dx)).2).col =
                    some (((t.merge other).move g (t.row + dy) (t.col + dx)).2) := by
                  show (((t.merge other).move g (t.row + dy) (t.col + dx)).1).tiles _ _ = _
                  rw [Tile.move_snd, Tile.move_tiles]
                  exact if_pos ⟨rfl, rfl⟩
                have hco2 : (({ ((t.merge other).move g (t.row + dy) (t.col + dx)).1 with
                    sum := ((t.merge other).move g (t.row + dy) (t.col + dx)).1.sum +
                      ((t.merge other).move g (t.row + dy) (t.col + dx)).2.value } : Grid)).Coherent :=
                  (t.merge other).move_coherent g (t.row + dy) (t.col + dx) hc
                have IH := ih _ ((t.merge other).move g (t.row + dy) (t.col + dx)).2 g3 t3 log3
                  hco2 hin2 hcell2 hrec
                obtain ⟨e1, e2, e3, e4, e5, e6, e7⟩ := IH
                have htot : (((t.merge other).move g (t.row + dy) (t.col + dx)).1).total
                    = g.total := by
                  rw [(t.merge other).move_total g (t.row + dy) (t.col + dx) hin hin2
                    (isUnit_trial_ne dx dy hv t.row t.col)]
                  show g.total - tileVal (g.tiles t.row t.col) -
                    tileVal (g.tiles (t.row + dy) (t.col + dx)) + (t.value + other.value) = g.total
                  rw [hcell, hmat]
                  show g.total - t.value - other.value + (t.value + other.value) = g.total
                  ring
                exact ⟨e1, e2, e3.trans htot, e4, e5, e6, e7⟩
          · rw [if_neg hval] at heq
            injection heq with h1
            injection h1 with hg hrest
            injection hrest with ht hlog
            subst hg
            subst ht
            exact ⟨rfl, rfl, rfl, hc, hcell, hin, rfl⟩
    · rw [if_neg hin2] at heq
      injection heq with h1
      injection h1 with hg hrest
      injection hrest with ht hlog
      subst hg
      subst ht
      exact ⟨rfl, rfl, rfl, hc, hcell, hin, rfl⟩

lemma Tile.slide_basic (t : Tile) (g : Grid) (dx dy : Int)
    (hv : isUnit dx dy) (hc : g.Coherent)
    (hin : g.in_bounds t.row t.col = true)
    (hcell : g.tiles t.row t.col = some t) :
    ((t.slide g dx dy).1).rows = g.rows ∧ ((t.slide g dx dy).1).cols = g.cols ∧
    ((t.slide g dx dy).1).total = g.total ∧ ((t.slide g dx dy).1).Coherent := by
  unfold Tile.slide
  cases hrec : slideLoop (g.rows + g.cols) g t dx dy t.row t.col with
  | none => exact ⟨rfl, rfl, rfl, hc⟩
  | some trip =>
      obtain ⟨g1, t1, log⟩ := trip
      have := slideLoop_basic (g.rows + g.cols) g t dx dy g1 t1 log hv hc hin hcell hrec
      exact ⟨this.1, this.2.1, this.2.2.1, this.2.2.2.1⟩

lemma Grid.in_bounds_congr (g1 g : Grid) (h1 : g1.rows = g.rows) (h2 : g1.cols = g.cols)
    (x y : Int) : g1.in_bounds x y = g.in_bounds x y := by
  simp [Grid.in_bounds, h1, h2]

lemma Grid.slideAll_cons (g : Grid) (p : Int × Int) (ps : List (Int × Int)) (dx dy : Int) :
    g.slideAll (p :: ps) dx dy =
      (match g.tiles p.1 p.2 with
        | none => g
        | some t => (t.slide g dx dy).1).slideAll ps dx dy := rfl

lemma Grid.slideAll_basic (ps : List (Int × Int)) (dx dy : Int) :
    ∀ g : Grid, g.Coherent → isUnit dx dy →
    (∀ p ∈ ps, g.in_bounds p.1 p.2 = true) →
    (g.slideAll ps dx dy).rows = g.rows ∧ (g.slideAll ps dx dy).cols = g.cols ∧
    (g.slideAll ps dx dy).total = g.total ∧ (g.slideAll ps dx dy).Coherent := by
  induction ps with
  | nil => intro g hc hv _; exact ⟨rfl, rfl, rfl, hc⟩
  | cons p ps ih =>
    intro g hc hv hps
    rw [Grid.slideAll_cons]
    cases hmat : g.tiles p.1 p.2 with
    | none =>
        exact ih g hc hv fun q hq => hps q (List.mem_cons_of_mem p hq)
    | some t =>
        have hinp : g.in_bounds p.1 p.2 = true := hps p (List.mem_cons_self p ps)
        have hpos := (g.coherent_iff.mp hc) p.1 p.2 hinp t hmat
        have hin : g.in_bounds t.row t.col = true := by
          rw [hpos.1, hpos.2]
          exact hinp
        have hcell : g.tiles t.row t.col = some t := by
          rw [hpos.1, hpos.2]
          exact hmat
        have hs := t.slide_basic g dx dy hv hc hin hcell
        have hrest := ih ((t.slide g dx dy).1) hs.2.2.2 hv ?_
        · exact ⟨hrest.1.trans hs.1, hrest.2.1.trans hs.2.1,
            hrest.2.2.1.trans hs.2.2.1, hrest.2.2.2⟩
        · intro q hq
          rw [Grid.in_bounds_congr _ g hs.1 hs.2.1]
          exact hps q (List.mem_cons_of_mem p hq)

lemma mem_ascend (n : Nat) (x : Int) : x ∈ ascend n ↔ 0 ≤ x ∧ x < (n : Int) := by
  unfold ascend
  rw [List.mem_map]
  constructor
  · rintro ⟨i, hi, rfl⟩
    rw [List.mem_range] at hi
    omega
  · rintro ⟨h1, h2⟩
    exact ⟨x.toNat, List.mem_range.mpr (by omega), by omega⟩

lemma Grid.mem_posDir (g : Grid) (d : Dir) (p : Int × Int)
    (hp : p ∈ (match d with
      | Dir.left => g.posLeft
      | Dir.right => g.posRight
      | Dir.up => g.posUp
      | Dir.down => g.posDown)) : g.in_bounds p.1 p.2 = true := by
  rw [Grid.in_bounds_iff]
  cases d with
  | left =>
      simp only [Grid.posLeft, List.mem_flatMap, List.mem_map] at hp
      obtain ⟨r, hr, c, hc, rfl⟩ := hp
      rw [mem_ascend] at hr hc
      exact ⟨hr.1, hr.2, hc.1, hc.2⟩
  | right =>
      simp only [Grid.posRight, List.mem_flatMap, List.mem_reverse, List.mem_map] at hp
      obtain ⟨r, hr, c, hc, rfl⟩ := hp
      rw [mem_ascend] at hr hc
      exact ⟨hr.1, hr.2, hc.1, hc.2⟩
  | up =>
      simp only [Grid.posUp, List.mem_flatMap, List.mem_map] at hp
      obtain ⟨r, hr, c, hc, rfl⟩ := hp
      rw [mem_ascend] at hr hc
      exact ⟨hr.1, hr.2, hc.1, hc.2⟩
  | down =>
      simp only [Grid.posDown, List.mem_flatMap, List.mem_reverse, List.mem_map] at hp
      obtain ⟨r, hr, c, hc, rfl⟩ := hp
      rw [mem_ascend] at hr hc
      exact ⟨hr.1, hr.2, hc.1, hc.2⟩

lemma Grid.moveDir_basic (g : Grid) (d : Dir) (hc : g.Coherent) :
    (g.moveDir d).rows = g.rows ∧ (g.moveDir d).cols = g.cols ∧
    (g.moveDir d).total = g.total ∧ (g.moveDir d).Coherent := by
  cases d with
  | left =>
      exact Grid.slideAll_basic g.posLeft (-1) 0 g hc (Or.inl ⟨rfl, rfl⟩)
        fun p hp => g.mem_posDir Dir.left p hp
  | right =>
      exact Grid.slideAll_basic g.posRight 1 0 g hc (Or.inr (Or.inl ⟨rfl, rfl⟩))
        fun p hp => g.mem_posDir Dir.right p hp
  | up =>
      exact Grid.slideAll_basic g.posUp 0 (-1) g hc (Or.inr (Or.inr (Or.inl ⟨rfl, rfl⟩)))
        fun p hp => g.mem_posDir Dir.up p hp
  | down =>
      exact Grid.slideAll_basic g.posDown 0 1 g hc (Or.inr (Or.inr (Or.inr ⟨rfl, rfl⟩)))
        fun p hp => g.mem_posDir Dir.down p hp

lemma mergeTotal_nil : mergeTotal [] = 0 := rfl

lemma mergeTotal_cons (r : MergeRec) (l : List MergeRec) :
    mergeTotal (r :: l) = (r.absorber.value + r.absorbed.value) + mergeTotal l := by
  simp [mergeTotal]

lemma slideLoop_sum (fuel : Nat) (g : Grid) (t : Tile) (dx dy row col : Int)
    (g' : Grid) (t' : Tile) (log : List MergeRec)
    (heq : slideLoop fuel g t dx dy row col = some (g', t', log)) :
    g'.sum = g.sum + mergeTotal log ∧
    ∀ rec ∈ log, rec.absorbed.value = rec.absorber.value := by
  induction fuel generalizing g t row col g' t' log with
  | zero => exact absurd heq (by simp [slideLoop])
  | succ f ih =>
    rw [slideLoop] at heq
    simp only at heq
    by_cases hin2 : g.in_bounds (row + dy) (col + dx) = true
    · rw [if_pos hin2] at heq
      cases hmat : g.tiles (row + dy) (col + dx) with
      | none =>
          rw [hmat] at heq
          dsimp only at heq
          have IH := ih ((t.move g (row + dy) (col + dx)).1)
            ((t.move g (row + dy) (col + dx)).2) (row + dy) (col + dx) g' t' log heq
          exact ⟨IH.1, IH.2⟩
      | some other =>
          rw [hmat] at heq
          dsimp only at heq
          by_cases hval : other.value = t.value
          · rw [if_pos hval] at heq
            cases hrec : slideLoop f
                { ((t.merge other).move g (row + dy) (col + dx)).1 with
                  sum := ((t.merge other).move g (row + dy) (col + dx)).1.sum +
                    ((t.merge other).move g (row + dy) (col + dx)).2.value }
                ((t.merge other).move g (row + dy) (col + dx)).2 dx dy
                (row + dy) (col + dx) with
            | none => rw [hrec] at heq; cases heq
            | some trip =>
                obtain ⟨g3, t3, log3⟩ := trip
                rw [hrec] at heq
                dsimp only at heq
                injection heq with h1
                injection h1 with hg hrest
                injection hrest with ht hlog
                subst hg
                subst ht
                subst hlog
                have IH := ih _ _ _ _ _ _ _ hrec
                constructor
                · rw [IH.1, mergeTotal_cons]
                  show g.sum + (t.value + other.value) + mergeTotal log3 = _
                  ring
                · intro rec hmem
                  rcases List.mem_cons.mp hmem with h | h
                  · subst h
                    exact hval
                  · exact IH.2 rec h
          · rw [if_neg hval] at heq
            injection heq with h1
            injection h1 with hg hrest
            injection hrest with ht hlog
            subst hg
            subst hlog
            constructor
            · rw [mergeTotal_nil]
              ring
            · intro rec hmem
              cases hmem
    · rw [if_neg hin2] at heq
      injection heq with h1
      injection h1 with hg hrest
      injection hrest with ht hlog
      subst hg
      subst hlog
      constructor
      · rw [mergeTotal_nil]
        ring
      · intro rec hmem
        cases hmem

lemma mergeTotal_append (a b : List MergeRec) :
    mergeTotal (a ++ b) = mergeTotal a + mergeTotal b := by
  simp [mergeTotal]

lemma Tile.slideLog_fst (t : Tile) (g : Grid) (dx dy : Int) :
    (t.slideLog g dx dy).1 = (t.slide g dx dy).1 := by
  unfold Tile.slideLog Tile.slide
  cases slideLoop (g.rows + g.cols) g t dx dy t.row t.col with
  | none => rfl
  | some trip =>
      obtain ⟨g1, t1, log⟩ := trip
      rfl

lemma Tile.slideLog_sum (t : Tile) (g : Grid) (dx dy : Int) :
    (t.slideLog g dx dy).1.sum = g.sum + mergeTotal (t.slideLog g dx dy).2 ∧
    ∀ rec ∈ (t.slideLog g dx dy).2, rec.absorbed.value = rec.absorber.value := by
  unfold Tile.slideLog
  cases hrec : slideLoop (g.rows + g.cols) g t dx dy t.row t.col with
  | none =>
      constructor
      · rw [mergeTotal_nil]
        ring
      · intro rec h
        cases h
  | some trip =>
      obtain ⟨g1, t1, log⟩ := trip
      exact slideLoop_sum (g.rows + g.cols) g t dx dy t.row t.col g1 t1 log hrec

lemma Grid.slideAllLog_eq_foldl (g : Grid) (ps : List (Int × Int)) (dx dy : Int) :
    g.slideAllLog ps dx dy = ps.foldl (stepLog dx dy) (g, []) := rfl

lemma foldl_stepLog_acc (ps : List (Int × Int)) (dx dy : Int) :
    ∀ (g : Grid) (acc : List MergeRec),
    ps.foldl (stepLog dx dy) (g, acc) =
      ((ps.foldl (stepLog dx dy) (g, [])).1,
        acc ++ (ps.foldl (stepLog dx dy) (g, [])).2) := by
  induction ps with
  | nil => intro g acc; simp
  | cons p ps ih =>
      intro g acc
      rw [List.foldl_cons, List.foldl_cons]
      cases hmat : g.tiles p.1 p.2 with
      | none =>
          have e1 : stepLog dx dy (g, acc) p = (g, acc) := by
            unfold stepLog
            rw [hmat]
          have e2 : stepLog dx dy (g, []) p = (g, []) := by
            unfold stepLog
            rw [hmat]
          rw [e1, e2]
          exact ih g acc
      | some t =>
          have e1 : stepLog dx dy (g, acc) p =
              ((t.slideLog g dx dy).1, acc ++ (t.slideLog g dx dy).2) := by
            unfold stepLog
            rw [hmat]
          have e2 : stepLog dx dy (g, []) p =
              ((t.slideLog g dx dy).1, (t.slideLog g dx dy).2) := by
            unfold stepLog
            rw [hmat]
            simp
          rw [e1, e2]
          rw [ih ((t.slideLog g dx dy).1) (acc ++ (t.slideLog g dx dy).2),
            ih ((t.slideLog g dx dy).1) ((t.slideLog g dx dy).2)]
          simp

lemma foldl_stepLog_fst (ps : List (Int × Int)) (dx dy : Int) :
    ∀ g : Grid, (ps.foldl (stepLog dx dy) (g, [])).1 = g.slideAll ps dx dy := by
  induction ps with
  | nil => intro g; rfl
  | cons p ps ih =>
      intro g
      rw [List.foldl_cons, Grid.slideAll_cons]
      cases hmat : g.tiles p.1 p.2 with
      | none =>
          have e2 : stepLog dx dy (g, []) p = (g, []) := by
            unfold stepLog
            rw [hmat]
          rw [e2]
          exact ih g
      | some t =>
          have e2 : stepLog dx dy (g, []) p =
              ((t.slideLog g dx dy).1, (t.slideLog g dx dy).2) := by
            unfold stepLog
            rw [hmat]
            simp
          rw [e2, foldl_stepLog_acc, t.slideLog_fst g dx dy]
          exact ih ((t.slide g dx dy).1)

lemma foldl_stepLog_sum (ps : List (Int × Int)) (dx dy : Int) :
    ∀ g : Grid,
    (ps.foldl (stepLog dx dy) (g, [])).1.sum =
      g.sum + mergeTotal (ps.foldl (stepLog dx dy) (g, [])).2 ∧
    ∀ rec ∈ (ps.foldl (stepLog dx dy) (g, [])).2,
      rec.absorbed.value = rec.absorber.value := by
  induction ps with
  | nil =>
      intro g
      rw [List.foldl_nil]
      constructor
      · rw [mergeTotal_nil]
        ring
      · intro rec h
        cases h
  | cons p ps ih =>
      intro g
      rw [List.foldl_cons]
      cases hmat : g.tiles p.1 p.2 with
      | none =>
          have e2 : stepLog dx dy (g, []) p = (g, []) := by
            unfold stepLog
            rw [hmat]
          rw [e2]
          exact ih g
      | some t =>
          have e2 : stepLog dx dy (g, []) p =
              ((t.slideLog g dx dy).1, (t.slideLog g dx dy).2) := by
            unfold stepLog
            rw [hmat]
            simp
          rw [e2, foldl_stepLog_acc]
          have hstep := t.slideLog_sum g dx dy
          have hrest := ih ((t.slideLog g dx dy).1)
          constructor
          · show (ps.foldl (stepLog dx dy) ((t.slideLog g dx dy).1, [])).1.sum = _
            rw [hrest.1, hstep.1, mergeTotal_append]
            ring
          · intro rec hmem
            rcases List.mem_append.mp hmem with h | h
            · exact hstep.2 rec h
            · exact hrest.2 rec h

lemma Grid.moveDir_sum (g : Grid) (d : Dir) :
    (g.moveDir d).sum = g.sum + mergeTotal (g.moveLogDir d) ∧
    ∀ rec ∈ g.moveLogDir d, rec.absorbed.value = rec.absorber.value := by
  cases d with
  | left =>
      constructor
      · show (g.slideAll g.posLeft (-1) 0).sum =
          g.sum + mergeTotal (g.slideAllLog g.posLeft (-1) 0).2
        rw [Grid.slideAllLog_eq_foldl, ← foldl_stepLog_fst]
        exact (foldl_stepLog_sum g.posLeft (-1) 0 g).1
      · show ∀ rec ∈ (g.slideAllLog g.posLeft (-1) 0).2, _
        rw [Grid.slideAllLog_eq_foldl]
        exact (foldl_stepLog_sum g.posLeft (-1) 0 g).2
  | right =>
      constructor
      · show (g.slideAll g.posRight 1 0).sum =
          g.sum + mergeTotal (g.slideAllLog g.posRight 1 0).2
        rw [Grid.slideAllLog_eq_foldl, ← foldl_stepLog_fst]
        exact (foldl_stepLog_sum g.posRight 1 0 g).1
      · show ∀ rec ∈ (g.slideAllLog g.posRight 1 0).2, _
        rw [Grid.slideAllLog_eq_foldl]
        exact (foldl_stepLog_sum g.posRight 1 0 g).2
  | up =>
      constructor
      · show (g.slideAll g.posUp 0 (-1)).sum =
          g.sum + mergeTotal (g.slideAllLog g.posUp 0 (-1)).2
        rw [Grid.slideAllLog_eq_foldl, ← foldl_stepLog_fst]
        exact (foldl_stepLog_sum g.posUp 0 (-1) g).1
      · show ∀ rec ∈ (g.slideAllLog g.posUp 0 (-1)).2, _
        rw [Grid.slideAllLog_eq_foldl]
        exact (foldl_stepLog_sum g.posUp 0 (-1) g).2
  | down =>
      constructor
      · show (g.slideAll g.posDown 0 1).sum =
          g.sum + mergeTotal (g.slideAllLog g.posDown 0 1).2
        rw [Grid.slideAllLog_eq_foldl, ← foldl_stepLog_fst]
        exact (foldl_stepLog_sum g.posDown 0 1 g).1
      · show ∀ rec ∈ (g.slideAllLog g.posDown 0 1).2, _
        rw [Grid.slideAllLog_eq_foldl]
        exact (foldl_stepLog_sum g.posDown 0 1 g).2

lemma mergeTotal_eq_double (log : List MergeRec)
    (h : ∀ rec ∈ log, rec.absorbed.value = rec.absorber.value) :
    mergeTotal log = 2 * (log.map fun rec => rec.absorbed.value).sum := by
  induction log with
  | nil => rfl
  | cons r l ih =>
      rw [mergeTotal_cons]
      have hr := h r (List.mem_cons_self r l)
      rw [ih fun rec hm => h rec (List.mem_cons_of_mem r hm)]
      simp only [List.map_cons, List.sum_cons]
      rw [hr]
      ring

lemma slideLoop_isSome (fuel : Nat) : ∀ (g : Grid) (t : Tile) (dx dy row col : Int),
    isUnit dx dy → distWall g dx dy row col < fuel →
    (slideLoop fuel g t dx dy row col).isSome = true := by
  induction fuel with
  | zero =>
      intro g t dx dy row col _ hlt
      exact absurd hlt (Nat.not_lt_zero _)
  | succ f ih =>
    intro g t dx dy row col hv hlt
    rw [slideLoop]
    simp only
    by_cases hin2 : g.in_bounds (row + dy) (col + dx) = true
    · rw [if_pos hin2]
      have hb := (g.in_bounds_iff (row + dy) (col + dx)).mp hin2
      cases hmat : g.tiles (row + dy) (col + dx) with
      | none =>
          dsimp only
          apply ih
          · exact hv
          · show distWall g dx dy (row + dy) (col + dx) < f
            rcases hv with ⟨h1, h2⟩ | ⟨h1, h2⟩ | ⟨h1, h2⟩ | ⟨h1, h2⟩ <;>
              subst h1 <;> subst h2 <;>
              simp only [distWall] at hlt ⊢ <;>
              norm_num at hlt ⊢ <;>
              omega
      | some other =>
          dsimp only
          by_cases hval : other.value = t.value
          · rw [if_pos hval]
            have hlt2 : distWall g dx dy (row + dy) (col + dx) < f := by
              rcases hv with ⟨h1, h2⟩ | ⟨h1, h2⟩ | ⟨h1, h2⟩ | ⟨h1, h2⟩ <;>
                subst h1 <;> subst h2 <;>
                simp only [distWall] at hlt ⊢ <;>
                norm_num at hlt ⊢ <;>
                omega
            have h3 := ih
              { ((t.merge other).move g (row + dy) (col + dx)).1 with
                sum := ((t.merge other).move g (row + dy) (col + dx)).1.sum +
                  ((t.merge other).move g (row + dy) (col + dx)).2.value }
              ((t.merge other).move g (row + dy) (col + dx)).2 dx dy
              (row + dy) (col + dx) hv hlt2
            obtain ⟨trip, htrip⟩ := Option.isSome_iff_exists.mp h3
            obtain ⟨g3, t3, log3⟩ := trip
            rw [htrip]
            rfl
          · rw [if_neg hval]
            rfl
    · rw [if_neg hin2]
      rfl

lemma slideLoop_mono : ∀ (f1 f2 : Nat), f1 ≤ f2 →
    ∀ (g : Grid) (t : Tile) (dx dy row col : Int) (x : Grid × Tile × List MergeRec),
    slideLoop f1 g t dx dy row col = some x →
    slideLoop f2 g t dx dy row col = some x := by
  intro f1
  induction f1 with
  | zero =>
      intro f2 _ g t dx dy row col x h
      exact absurd h (by simp [slideLoop])
  | succ f ih =>
    intro f2 hle g t dx dy row col x h
    obtain ⟨f2', rfl⟩ : ∃ f2', f2 = f2' + 1 := ⟨f2 - 1, by omega⟩
    rw [slideLoop] at h ⊢
    simp only at h ⊢
    by_cases hin2 : g.in_bounds (row + dy) (col + dx) = true
    · rw [if_pos hin2] at h ⊢
      cases hmat : g.tiles (row + dy) (col + dx) with
      | none =>
          rw [hmat] at h
          dsimp only at h ⊢
          exact ih f2' (by omega) _ _ _ _ _ _ _ h
      | some other =>
          rw [hmat] at h
          dsimp only at h ⊢
          by_cases hval : other.value = t.value
          · rw [if_pos hval] at h ⊢
            cases hrec : slideLoop f
                { ((t.merge other).move g (row + dy) (col + dx)).1 with
                  sum := ((t.merge other).move g (row + dy) (col + dx)).1.sum +
                    ((t.merge other).move g (row + dy) (col + dx)).2.value }
                ((t.merge other).move g (row + dy) (col + dx)).2 dx dy
                (row + dy) (col + dx) with
            | none => rw [hrec] at h; cases h
            | some trip =>
                rw [hrec] at h
                have h2 := ih f2' (by omega) _ _ _ _ _ _ trip hrec
                rw [h2]
                exact h
          · rw [if_neg hval] at h ⊢
            exact h
    · rw [if_neg hin2] at h ⊢
      exact h

lemma distWall_lt_max (g : Grid) (dx dy row col : Int)
    (hv : isUnit dx dy) (hin : g.in_bounds row col = true) :
    distWall g dx dy row col < Nat.max g.rows g.cols := by
  have hb := (g.in_bounds_iff row col).mp hin
  rcases hv with ⟨h1, h2⟩ | ⟨h1, h2⟩ | ⟨h1, h2⟩ | ⟨h1, h2⟩ <;>
    subst h1 <;> subst h2 <;>
    simp only [distWall] <;>
    norm_num <;>
    omega

lemma slideLoop_ids (fuel : Nat) (g : Grid) (t : Tile) (dx dy : Int)
    (g' : Grid) (t' : Tile) (log : List MergeRec)
    (hv : isUnit dx dy) (hc : g.Coherent) (hd : g.DistinctIds) (hp : g.AllPos)
    (hin : g.in_bounds t.row t.col = true)
    (hcell : g.tiles t.row t.col = some t)
    (heq : slideLoop fuel g t dx dy t.row t.col = some (g', t', log)) :
    g'.DistinctIds ∧ g'.AllPos ∧ t'.id = t.id ∧
    (∀ i, i ∈ g'.tile_ids → i ∈ g.tile_ids) ∧
    ∀ rec ∈ log, rec.absorber.id = t.id ∧ 0 < rec.absorber.value ∧
      rec.absorbed.value = rec.absorber.value ∧
      rec.absorbed.id ∉ g'.tile_ids ∧ rec.absorbed.id ≠ t.id := by
  induction fuel generalizing g t g' t' log with
  | zero => exact absurd heq (by simp [slideLoop])
  | succ f ih =>
    have htpos : 0 < t.value := g.allPos_iff.mp hp t.row t.col hin t hcell
    rw [slideLoop] at heq
    simp only at heq
    by_cases hin2 : g.in_bounds (t.row + dy) (t.col + dx) = true
    · rw [if_pos hin2] at heq
      cases hmat : g.tiles (t.row + dy) (t.col + dx) with
      | none =>
          rw [hmat] at heq
          dsimp only at heq
          have hcell2 : ((t.move g (t.row + dy) (t.col + dx)).1).tiles
              ((t.move g (t.row + dy) (t.col + dx)).2).row
              ((t.move g (t.row + dy) (t.col + dx)).2).col =
              some ((t.move g (t.row + dy) (t.col + dx)).2) := by
            rw [Tile.move_snd, Tile.move_tiles]
            exact if_pos ⟨rfl, rfl⟩
          have hin2' : ((t.move g (t.row + dy) (t.col + dx)).1).in_bounds
              ((t.move g (t.row + dy) (t.col + dx)).2).row
              ((t.move g (t.row + dy) (t.col + dx)).2).col = true := hin2
          have IH := ih (t.move g (t.row + dy) (t.col + dx)).1
            (t.move g (t.row + dy) (t.col + dx)).2 g' t' log
            (t.move_coherent g (t.row + dy) (t.col + dx) hc)
            (Tile.move_distinct t t g (t.row + dy) (t.col + dx) hd hcell rfl hin)
            (t.move_allPos g (t.row + dy) (t.col + dx) hp htpos)
            hin2' hcell2 heq
          obtain ⟨e1, e2, e3, e4, e5⟩ := IH
          have hsub : ∀ i, i ∈ g'.tile_ids → i ∈ g.tile_ids := by
            intro i hi
            rcases t.move_ids g (t.row + dy) (t.col + dx) i (e4 i hi) with h | h
            · subst h
              exact t.id_mem_tile_ids g hcell hin
            · exact h
          refine ⟨e1, e2, e3, hsub, ?_⟩
          intro rec hmem
          have := e5 rec hmem
          exact ⟨this.1, this.2.1, this.2.2.1, this.2.2.2.1, this.2.2.2.2⟩
      | some other =>
          rw [hmat] at heq
          dsimp only at heq
          by_cases hval : other.value = t.value
          · rw [if_pos hval] at heq
            have hopos : 0 < other.value :=
              g.allPos_iff.mp hp (t.row + dy) (t.col + dx) hin2 other hmat
            have hne_id : t.id ≠ other.id := by
              intro hidc
              have := g.distinct_iff.mp hd t.row t.col (t.row + dy) (t.col + dx)
                hin hin2 t other hcell hmat hidc
              exact isUnit_trial_ne dx dy hv t.row t.col ⟨this.1.symm, this.2.symm⟩
            cases hrec : slideLoop f
                { ((t.merge other).move g (t.row + dy) (t.col + dx)).1 with
                  sum := ((t.merge other).move g (t.row + dy) (t.col + dx)).1.sum +
                    ((t.merge other).move g (t.row + dy) (t.col + dx)).2.value }
                ((t.merge other).move g (t.row + dy) (t.col + dx)).2 dx dy
                (t.row + dy) (t.col + dx) with
            | none => rw [hrec] at heq; cases heq
            | some trip =>
                obtain ⟨g3, t3, log3⟩ := trip
                rw [hrec] at heq
                dsimp only at heq
                injection heq with h1
                injection h1 with hg hrest
                injection hrest with ht hlog
                subst hg
                subst ht
                subst hlog
                have hcell2 : (({ ((t.merge other).move g (t.row + dy) (t.col + dx)).1 with
                    sum := ((t.merge other).move g (t.row + dy) (t.col + dx)).1.sum +
                      ((t.merge other).move g (t.row + dy) (t.col + dx)).2.value } : Grid)).tiles
                    (((t.merge other).move g (t.row + dy) (t.col + dx)).2).row
                    (((t.merge other).move g (t.row + dy) (t.col + dx)).2).col =
                    some (((t.merge other).move g (t.row + dy) (t.col + dx)).2) := by
                  show (((t.merge other).move g (t.row + dy) (t.col + dx)).1).tiles _ _ = _
                  rw [Tile.move_snd, Tile.move_tiles]
                  exact if_pos ⟨rfl, rfl⟩
                have hd2 : (({ ((t.merge other).move g (t.row + dy) (t.col + dx)).1 with
                    sum := ((t.merge other).move g (t.row + dy) (t.col + dx)).1.sum +
                      ((t.merge other).move g (t.row + dy) (t.col + dx)).2.value } : Grid)).DistinctIds :=
                  Tile.move_distinct (t.merge other) t g (t.row + dy) (t.col + dx) hd hcell rfl hin
                have hp2 : (({ ((t.merge other).move g (t.row + dy) (t.col + dx)).1 with
                    sum := ((t.merge other).move g (t.row + dy) (t.col + dx)).1.sum +
                      ((t.merge other).move g (t.row + dy) (t.col + dx)).2.value } : Grid)).AllPos :=
                  Tile.move_allPos (t.merge other) g (t.row + dy) (t.col + dx) hp
                    (by show 0 < t.value + other.value; omega)
                have hco2 : (({ ((t.merge other).move g (t.row + dy) (t.col + dx)).1 with
                    sum := ((t.merge other).move g (t.row + dy) (t.col + dx)).1.sum +
                      ((t.merge other).move g (t.row + dy) (t.col + dx)).2.value } : Grid)).Coherent :=
                  (t.merge other).move_coherent g (t.row + dy) (t.col + dx) hc
                have IH := ih _ ((t.merge other).move g (t.row + dy) (t.col + dx)).2 g3 t3 log3
                  hco2 hd2 hp2 hin2 hcell2 hrec
                obtain ⟨e1, e2, e3, e4, e5⟩ := IH
                have hmv_ids : ∀ i, i ∈ (({ ((t.merge other).move g (t.row + dy) (t.col + dx)).1 with
                    sum := ((t.merge other).move g (t.row + dy) (t.col + dx)).1.sum +
                      ((t.merge other).move g (t.row + dy) (t.col + dx)).2.value } : Grid)).tile_ids →
                    i ∈ g.tile_ids := by
                  intro i hi
                  rcases (t.merge other).move_ids g (t.row + dy) (t.col + dx) i hi with h | h
                  · subst h
                    exact t.id_mem_tile_ids g hcell hin
                  · exact h
                have hgone : other.id ∉ (({ ((t.merge other).move g (t.row + dy) (t.col + dx)).1 with
                    sum := ((t.merge other).move g (t.row + dy) (t.col + dx)).1.sum +
                      ((t.merge other).move g (t.row + dy) (t.col + dx)).2.value } : Grid)).tile_ids :=
                  Tile.move_notin_ids (t.merge other) other g (t.row + dy) (t.col + dx)
                    hd hmat hin2 hne_id
                have hgone3 : other.id ∉ g3.tile_ids := fun hmem => hgone (e4 other.id hmem)
                refine ⟨e1, e2, e3, fun i hi => hmv_ids i (e4 i hi), ?_⟩
                intro rec hmem
                rcases List.mem_cons.mp hmem with h | h
                · subst h
                  exact ⟨rfl, htpos, hval, hgone3, fun hcon => hne_id hcon.symm⟩
                · have := e5 rec h
                  exact ⟨this.1, this.2.1, this.2.2.1, this.2.2.2.1, this.2.2.2.2⟩
          · rw [if_neg hval] at heq
            injection heq with h1
            injection h1 with hg hrest
            injection hrest with ht hlog
            subst hg
            subst ht
            subst hlog
            refine ⟨hd, hp, rfl, fun i hi => hi, ?_⟩
            intro rec hmem
            cases hmem
    · rw [if_neg hin2] at heq
      injection heq with h1
      injection h1 with hg hrest
      injection hrest with ht hlog
      subst hg
      subst ht
      subst hlog
      refine ⟨hd, hp, rfl, fun i hi => hi, ?_⟩
      intro rec hmem
      cases hmem

lemma slideLoop_ids_sub (fuel : Nat) : ∀ (g : Grid) (t : Tile) (dx dy row col : Int)
    (g' : Grid) (t' : Tile) (log : List MergeRec),
    slideLoop fuel g t dx dy row col = some (g', t', log) →
    g'.rows = g.rows ∧ g'.cols = g.cols ∧
    ∀ i, i ∈ g'.tile_ids → i ∈ g.tile_ids ∨ i = t.id := by
  induction fuel with
  | zero =>
      intro g t dx dy row col g' t' log h
      exact absurd h (by simp [slideLoop])
  | succ f ih =>
    intro g t dx dy row col g' t' log heq
    rw [slideLoop] at heq
    simp only at heq
    by_cases hin2 : g.in_bounds (row + dy) (col + dx) = true
    · rw [if_pos hin2] at heq
      cases hmat : g.tiles (row + dy) (col + dx) with
      | none =>
          rw [hmat] at heq
          dsimp only at heq
          have IH := ih ((t.move g (row + dy) (col + dx)).1)
            ((t.move g (row + dy) (col + dx)).2) dx dy (row + dy) (col + dx)
            g' t' log heq
          refine ⟨IH.1, IH.2.1, ?_⟩
          intro i hi
          rcases IH.2.2 i hi with h | h
          · exact (t.move_ids g (row + dy) (col + dx) i h).symm
          · exact Or.inr h
      | some other =>
          rw [hmat] at heq
          dsimp only at heq
          by_cases hval : other.value = t.value
          · rw [if_pos hval] at heq
            cases hrec : slideLoop f
                { ((t.merge other).move g (row + dy) (col + dx)).1 with
                  sum := ((t.merge other).move g (row + dy) (col + dx)).1.sum +
                    ((t.merge other).move g (row + dy) (col + dx)).2.value }
                ((t.merge other).move g (row + dy) (col + dx)).2 dx dy
                (row + dy) (col + dx) with
            | none => rw [hrec] at heq; cases heq
            | some trip =>
                obtain ⟨g3, t3, log3⟩ := trip
                rw [hrec] at heq
                dsimp only at heq
                injection heq with h1
                injection h1 with hg hrest
                injection hrest with ht hlog
                subst hg
                subst ht
                subst hlog
                have IH := ih _ ((t.merge other).move g (row + dy) (col + dx)).2
                  dx dy (row + dy) (col + dx) g3 t3 log3 hrec
                refine ⟨IH.1, IH.2.1, ?_⟩
                intro i hi
                rcases IH.2.2 i hi with h | h
                · exact ((t.merge other).move_ids g (row + dy) (col + dx) i h).symm
                · exact Or.inr h
          · rw [if_neg hval] at heq
            injection heq with h1
            injection h1 with hg hrest
            injection hrest with ht hlog
            subst hg
            subst ht
            exact ⟨rfl, rfl, fun i hi => Or.inl hi⟩
    · rw [if_neg hin2] at heq
      injection heq with h1
      injection h1 with hg hrest
      injection hrest with ht hlog
      subst hg
      subst ht
      exact ⟨rfl, rfl, fun i hi => Or.inl hi⟩

lemma Tile.slide_ids_sub (t : Tile) (g : Grid) (dx dy : Int) :
    ((t.slide g dx dy).1).rows = g.rows ∧ ((t.slide g dx dy).1).cols = g.cols ∧
    ∀ i, i ∈ ((t.slide g dx dy).1).tile_ids → i ∈ g.tile_ids ∨ i = t.id := by
  unfold Tile.slide
  cases hrec : slideLoop (g.rows + g.cols) g t dx dy t.row t.col with
  | none => exact ⟨rfl, rfl, fun i hi => Or.inl hi⟩
  | some trip =>
      obtain ⟨g1, t1, log⟩ := trip
      exact slideLoop_ids_sub (g.rows + g.cols) g t dx dy t.row t.col g1 t1 log hrec

lemma Grid.slideAll_ids_sub (ps : List (Int × Int)) (dx dy : Int) :
    ∀ g : Grid, (∀ p ∈ ps, g.in_bounds p.1 p.2 = true) →
    (g.slideAll ps dx dy).rows = g.rows ∧ (g.slideAll ps dx dy).cols = g.cols ∧
    ∀ i, i ∈ (g.slideAll ps dx dy).tile_ids → i ∈ g.tile_ids := by
  induction ps with
  | nil => intro g _; exact ⟨rfl, rfl, fun i hi => hi⟩
  | cons p ps ih =>
    intro g hps
    rw [Grid.slideAll_cons]
    cases hmat : g.tiles p.1 p.2 with
    | none =>
        exact ih g fun q hq => hps q (List.mem_cons_of_mem p hq)
    | some t =>
        have hinp : g.in_bounds p.1 p.2 = true := hps p (List.mem_cons_self p ps)
        have hmemt : t.id ∈ g.tile_ids :=
          (g.mem_tile_ids t.id).mpr ⟨p.1, p.2, hinp, t, hmat, rfl⟩
        have hs := t.slide_ids_sub g dx dy
        have hrest := ih ((t.slide g dx dy).1) ?_
        · refine ⟨hrest.1.trans hs.1, hrest.2.1.trans hs.2.1, ?_⟩
          intro i hi
          rcases hs.2.2 i (hrest.2.2 i hi) with h | h
          · exact h
          · subst h
            exact hmemt
        · intro q hq
          rw [Grid.in_bounds_congr _ g hs.1 hs.2.1]
          exact hps q (List.mem_cons_of_mem p hq)

lemma Grid.moveDir_ids_sub (g : Grid) (d : Dir) :
    (g.moveDir d).rows = g.rows ∧ (g.moveDir d).cols = g.cols ∧
    ∀ i, i ∈ (g.moveDir d).tile_ids → i ∈ g.tile_ids := by
  cases d with
  | left =>
      exact Grid.slideAll_ids_sub g.posLeft (-1) 0 g
        fun p hp => g.mem_posDir Dir.left p hp
  | right =>
      exact Grid.slideAll_ids_sub g.posRight 1 0 g
        fun p hp => g.mem_posDir Dir.right p hp
  | up =>
      exact Grid.slideAll_ids_sub g.posUp 0 (-1) g
        fun p hp => g.mem_posDir Dir.up p hp
  | down =>
      exact Grid.slideAll_ids_sub g.posDown 0 1 g
        fun p hp => g.mem_posDir Dir.down p hp

lemma applyMoves_ids_sub (ds : List Dir) : ∀ (g : Grid) (i : Nat),
    i ∈ (applyMoves ds g).tile_ids → i ∈ g.tile_ids := by
  induction ds with
  | nil => intro g i hi; exact hi
  | cons d ds ih =>
      intro g i hi
      exact (g.moveDir_ids_sub d).2.2 i (ih (g.moveDir d) i hi)

lemma Grid.find_empty_none_iff (g : Grid) (k : Nat) :
    g.find_empty k = none ↔ g.empty_cells = [] := by
  unfold Grid.find_empty
  rw [List.get?_eq_none]
  constructor
  · intro h
    cases hl : g.empty_cells with
    | nil => rfl
    | cons a l =>
        rw [hl] at h
        have hm : k % (a :: l).length < (a :: l).length := Nat.mod_lt _ (by simp)
        omega
  · intro h
    rw [h]
    simp

lemma Grid.find_empty_mem (g : Grid) (k : Nat) (p : Int × Int)
    (h : g.find_empty k = some p) : p ∈ g.empty_cells :=
  List.get?_mem h

lemma nodup_get?_inj {α : Type} (l : List α) (hnd : l.Nodup) (i j : Nat) (a : α)
    (hi : l.get? i = some a) (hj : l.get? j = some a) : i = j := by
  rw [List.get?_eq_some] at hi hj
  obtain ⟨hi1, hi2⟩ := hi
  obtain ⟨hj1, hj2⟩ := hj
  have hinj := List.nodup_iff_injective_get.mp hnd
  have := hinj (hi2.trans hj2.symm)
  exact congrArg Fin.val this

lemma Grid.find_empty_some_of_ne (g : Grid) (k : Nat) (h : g.empty_cells ≠ []) :
    ∃ p, g.find_empty k = some p := by
  cases hf : g.find_empty k with
  | none => exact absurd ((g.find_empty_none_iff k).mp hf) h
  | some p => exact ⟨p, rfl⟩

lemma Grid.set_tiles_isSome_iff (g : Grid) (rep : List (List Int)) :
    (g.set_tiles rep).isSome = true ↔
      ∀ r, r < g.rows → ∀ c, c < g.cols → (getRep rep r c).isSome = true := by
  unfold Grid.set_tiles
  by_cases hcond : ((List.range g.rows).all fun r =>
      (List.range g.cols).all fun c => (getRep rep r c).isSome) = true
  · rw [if_pos hcond]
    simp only [Option.isSome_some, true_iff]
    rw [List.all_eq_true] at hcond
    intro r hr c hc
    have h1 := hcond r (List.mem_range.mpr hr)
    rw [List.all_eq_true] at h1
    exact h1 c (List.mem_range.mpr hc)
  · rw [if_neg hcond]
    simp only [Option.isSome_none, Bool.false_eq_true, false_iff]
    intro hall
    apply hcond
    rw [List.all_eq_true]
    intro r hr
    rw [List.all_eq_true]
    intro c hc
    exact hall r (List.mem_range.mp hr) c (List.mem_range.mp hc)

lemma Grid.set_tiles_spec (g : Grid) (rep : List (List Int)) (g' : Grid)
    (h : g.set_tiles rep = some g') :
    g'.rows = g.rows ∧ g'.cols = g.cols ∧ g'.sum = g.sum ∧
    ∀ r, r < g.rows → ∀ c, c < g.cols →
      tileVal (g'.tiles (r : Int) (c : Int)) = (getRep rep r c).getD 0 := by
  unfold Grid.set_tiles at h
  by_cases hcond : ((List.range g.rows).all fun r =>
      (List.range g.cols).all fun c => (getRep rep r c).isSome) = true
  · rw [if_pos hcond] at h
    injection h with h
    subst h
    refine ⟨rfl, rfl, rfl, ?_⟩
    intro r hr c hc
    show tileVal (if 0 ≤ (r : Int) ∧ (r : Int) < (g.rows : Int) ∧
        0 ≤ (c : Int) ∧ (c : Int) < (g.cols : Int) then _ else none) = _
    rw [if_pos ⟨Int.natCast_nonneg r, by exact_mod_cast hr,
      Int.natCast_nonneg c, by exact_mod_cast hc⟩]
    rw [List.all_eq_true] at hcond
    have h1 := hcond r (List.mem_range.mpr hr)
    rw [List.all_eq_true] at h1
    have h2 := h1 c (List.mem_range.mpr hc)
    rw [Option.isSome_iff_exists] at h2
    obtain ⟨v, hv⟩ := h2
    rw [Int.toNat_natCast, Int.toNat_natCast, hv]
    dsimp only
    by_cases hz : v = 0
    · subst hz
      rw [if_pos rfl]
      rfl
    · rw [if_neg hz]
      rfl
  · rw [if_neg hcond] at h
    cases h

lemma Tile.slideLog_ids (t : Tile) (g : Grid) (dx dy : Int)
    (hv : isUnit dx dy) (hc : g.Coherent) (hd : g.DistinctIds) (hp : g.AllPos)
    (hin : g.in_bounds t.row t.col = true)
    (hcell : g.tiles t.row t.col = some t) :
    ∀ rec ∈ (t.slideLog g dx dy).2, rec.absorber.id = t.id ∧
      0 < rec.absorber.value ∧ rec.absorbed.value = rec.absorber.value ∧
      rec.absorbed.id ∉ ((t.slideLog g dx dy).1).tile_ids ∧
      rec.absorbed.id ≠ t.id := by
  unfold Tile.slideLog
  cases hrec : slideLoop (g.rows + g.cols) g t dx dy t.row t.col with
  | none =>
      intro rec hmem
      cases hmem
  | some trip =>
      obtain ⟨g1, t1, log⟩ := trip
      have := slideLoop_ids (g.rows + g.cols) g t dx dy g1 t1 log
        hv hc hd hp hin hcell hrec
      intro rec hmem
      have h5 := this.2.2.2.2 rec hmem
      exact ⟨h5.1, h5.2.1, h5.2.2.1, h5.2.2.2.1, h5.2.2.2.2⟩

lemma Grid.full_iff (g : Grid) :
    g.empty_cells = [] ↔
      ∀ r c : Int, g.in_bounds r c = true → g.tiles r c ≠ none := by
  rw [List.eq_nil_iff_forall_not_mem]
  constructor
  · intro h r c hin hnone
    exact h (r, c) ((g.mem_empty_cells (r, c)).mpr ⟨hin, hnone⟩)
  · intro h p hp
    have hm := (g.mem_empty_cells p).mp hp
    exact h p.1 p.2 hm.1 hm.2

/-- Claim C1, counterexample.  The claim says a tile merges at most once
per move and does not continue past the merge point.  On the grid
`[[4,2,2,0],...]` the source's left move produces `[[8,0,0,0],...]` (the
tile that starts at column 2 merges at column 1, keeps sliding, and
merges again at column 0), while the spec's stop-at-merge slide
(`Grid.leftStop`) produces `[[4,4,0,0],...]`: the two disagree. -/
theorem slide_stops_at_merge_refuted :
    (Grid.left g4220).as_list =
      [[8, 0, 0, 0], [0, 0, 0, 0], [0, 0, 0, 0], [0, 0, 0, 0]] ∧
    (Grid.leftStop g4220).as_list =
      [[4, 4, 0, 0], [0, 0, 0, 0], [0, 0, 0, 0], [0, 0, 0, 0]] ∧
    (Grid.left g4220).as_list ≠ (Grid.leftStop g4220).as_list := by
  refine ⟨by decide, by decide, by decide⟩

/-- Claim C1, amended.  A tile's slide does not stop at a merge: after
absorbing an equal-valued neighbour it continues probing in the same
direction and may merge again.  Concretely, on `[[4,2,2,0],...]` the left
move's merge log holds two merges performed by the same tile (id 2), and
the move ends in `[[8,0,0,0],...]`. -/
theorem slide_merges_can_chain :
    g4220.moveLogDir Dir.left =
      [{ absorber := { id := 2, row := 0, col := 2, value := 2 },
         absorbed := { id := 1, row := 0, col := 1, value := 2 } },
       { absorber := { id := 2, row := 0, col := 1, value := 4 },
         absorbed := { id := 0, row := 0, col := 0, value := 4 } }] ∧
    (g4220.moveLogDir Dir.left).map (fun rec => rec.absorber.id) = [2, 2] ∧
    (Grid.left g4220).as_list =
      [[8, 0, 0, 0], [0, 0, 0, 0], [0, 0, 0, 0], [0, 0, 0, 0]] := by
  refine ⟨by decide, by decide, by decide⟩

/-- Claim C2, counterexample.  The claim says a merge adds the merged
pair's shared pre-merge value (2 for a 2+2 merge).  The source adds
`self.value` after the merge, i.e. the combined value: on
`[[2,2,0,0],...]` the move adds 4, not 2. -/
theorem merge_score_adds_shared_refuted :
    g22.score = 0 ∧ (Grid.left g22).score = 4 ∧
    (Grid.left g22).score ≠ g22.score + 2 := by
  refine ⟨by decide, by decide, by decide⟩

/-- Claim C2, amended.  For every grid and every move, the score grows by
exactly the sum over the merges performed of the absorbing tile's
post-merge value (absorber + absorbed), i.e. by twice the merged pair's
shared value per merge (a 2+2 merge adds 4), and by nothing else: the
score delta is exactly accounted for by the move's merge log. -/
theorem score_delta_counts_merges (d : Dir) (g : Grid) :
    (g.moveDir d).score = g.score + mergeTotal (g.moveLogDir d) ∧
    (∀ rec ∈ g.moveLogDir d, rec.absorbed.value = rec.absorber.value) ∧
    ((g.moveDir d).score = g.score +
      2 * ((g.moveLogDir d).map fun rec => rec.absorbed.value).sum) ∧
    (∀ (k dr : Nat) (g' : Grid), g.place_tile k dr = some g' → g'.score = g.score) ∧
    (∀ (rep : List (List Int)) (g' : Grid), g.set_tiles rep = some g' →
      g'.score = g.score) := by
  have h := g.moveDir_sum d
  refine ⟨h.1, h.2, ?_, ?_, ?_⟩
  · show (g.moveDir d).sum = g.sum +
      2 * ((g.moveLogDir d).map fun rec => rec.absorbed.value).sum
    rw [h.1, mergeTotal_eq_double (g.moveLogDir d) h.2]
  · intro k dr g' hp
    unfold Grid.place_tile at hp
    cases hf : g.find_empty k with
    | none => rw [hf] at hp; cases hp
    | some p =>
        obtain ⟨r, c⟩ := p
        rw [hf] at hp
        dsimp only at hp
        injection hp with hp
        subst hp
        rfl
  · intro rep g' hs
    exact (g.set_tiles_spec rep g' hs).2.2.1

/-- Witness for `score_delta_counts_merges` at a concrete grid and merge
record. -/
theorem score_delta_counts_merges_witness :
    (g4220.moveDir Dir.left).score =
      g4220.score + mergeTotal (g4220.moveLogDir Dir.left) ∧
    rec0.absorbed.value = rec0.absorber.value ∧
    ((g22.place_tile 0 0).getD Grid.init).score = g22.score ∧
    ((Grid.init.set_tiles rep22).getD Grid.init).score = Grid.init.score :=
  ⟨(score_delta_counts_merges Dir.left g4220).1,
   (score_delta_counts_merges Dir.left g4220).2.1 rec0 (by decide),
   (score_delta_counts_merges Dir.left g22).2.2.2.1 0 0
     ((g22.place_tile 0 0).getD Grid.init) rfl,
   (score_delta_counts_merges Dir.left Grid.init).2.2.2.2 rep22
     ((Grid.init.set_tiles rep22).getD Grid.init) rfl⟩

/-- Claim C3.  Loading `[[2,2,0,0],[0,0,0,0],[0,0,0,0],[0,0,0,0]]` and
moving left yields first row `[4,0,0,0]` with all other rows empty, and
the score rises from 0 by exactly 4. -/
theorem scenario_left_22_scores_4 :
    Grid.init.set_tiles rep22 = some g22 ∧ g22.score = 0 ∧
    (Grid.left g22).as_list =
      [[4, 0, 0, 0], [0, 0, 0, 0], [0, 0, 0, 0], [0, 0, 0, 0]] ∧
    (Grid.left g22).score = 4 := by
  refine ⟨rfl, by decide, by decide, by decide⟩

/-- Claim C4, counterexample.  The claim says `set_tiles` rejects a
non-power-of-two non-zero entry.  The source performs no value
validation: loading `[[3,0,0,0],...]` returns normally and produces a
grid holding a 3-tile. -/
theorem set_tiles_accepts_non_power_of_two :
    (Grid.init.set_tiles rep3).isSome = true ∧
    ((Grid.init.set_tiles rep3).getD Grid.init).as_list =
      [[3, 0, 0, 0], [0, 0, 0, 0], [0, 0, 0, 0], [0, 0, 0, 0]] := by
  refine ⟨by decide, by decide⟩

/-- Claim C4, amended.  `set_tiles` fails (raises an indexing error)
exactly when the matrix lacks an entry at some in-range position (too few
rows, or a needed row too short); when it returns, the entries are copied
verbatim with no validation, so negative and non-power-of-two values are
silently accepted. -/
theorem set_tiles_validation (g : Grid) (rep : List (List Int)) :
    ((g.set_tiles rep).isSome = true ↔
      ∀ r, r < g.rows → ∀ c, c < g.cols → (getRep rep r c).isSome = true) ∧
    ∀ g', g.set_tiles rep = some g' →
      ∀ r, r < g.rows → ∀ c, c < g.cols →
        tileVal (g'.tiles (r : Int) (c : Int)) = (getRep rep r c).getD 0 :=
  ⟨g.set_tiles_isSome_iff rep,
   fun g' h r hr c hc => (g.set_tiles_spec rep g' h).2.2.2 r hr c hc⟩

/-- Witness for `set_tiles_validation` at the value-3 matrix. -/
theorem set_tiles_validation_witness :
    (Grid.init.set_tiles rep3).isSome = true ∧
    tileVal (((Grid.init.set_tiles rep3).getD Grid.init).tiles 0 0) =
      (getRep rep3 0 0).getD 0 :=
  ⟨(set_tiles_validation Grid.init rep3).1.mpr (by decide),
   (set_tiles_validation Grid.init rep3).2
     ((Grid.init.set_tiles rep3).getD Grid.init) rfl 0 (by decide) 0 (by decide)⟩

/-- Claim C5.  For every grid satisfying the position invariant and each
of the four moves, the total value of all tiles on the board is
unchanged by the move. -/
theorem move_preserves_total (d : Dir) (g : Grid) (hc : g.Coherent) :
    (g.moveDir d).total = g.total :=
  (g.moveDir_basic d hc).2.2.1

/-- Witness for `move_preserves_total` at a concrete grid. -/
theorem move_preserves_total_witness :
    g4220.Coherent ∧ (g4220.moveDir Dir.left).total = g4220.total :=
  ⟨by decide, move_preserves_total Dir.left g4220 (by decide)⟩

/-- Claim C6.  If the grid has an empty cell, `place_tile` returns
normally, fills exactly one previously empty in-range cell with a newly
created tile of value 2 or 4 (positioned at that cell) and leaves every
other cell unchanged; on a full grid the assertion fails and the call
does not return normally. -/
theorem place_tile_spec_thm (g : Grid) (k d : Nat) :
    ((∃ r c : Int, g.in_bounds r c = true ∧ g.tiles r c = none) →
      ∃ g', g.place_tile k d = some g' ∧
        ∃ r c : Int, g.in_bounds r c = true ∧ g.tiles r c = none ∧
          (∃ t : Tile, g'.tiles r c = some t ∧ (t.value = 2 ∨ t.value = 4) ∧
            t.row = r ∧ t.col = c) ∧
          (∀ r' c' : Int, ¬(r' = r ∧ c' = c) → g'.tiles r' c' = g.tiles r' c')) ∧
    ((∀ r c : Int, g.in_bounds r c = true → g.tiles r c ≠ none) →
      g.place_tile k d = none) := by
  constructor
  · rintro ⟨r0, c0, hin0, hnone0⟩
    have hne : g.empty_cells ≠ [] := by
      intro h
      exact (g.full_iff.mp h) r0 c0 hin0 hnone0
    obtain ⟨p, hp⟩ := g.find_empty_some_of_ne k hne
    obtain ⟨r, c⟩ := p
    have hm := (g.mem_empty_cells (r, c)).mp (g.find_empty_mem k (r, c) hp)
    refine ⟨g.setTile r c (some (Tile.mk g.fresh_id r c (if d = 4 then 4 else 2))),
      ?_, r, c, hm.1, hm.2, ?_, ?_⟩
    · unfold Grid.place_tile
      rw [hp]
    · refine ⟨Tile.mk g.fresh_id r c (if d = 4 then 4 else 2), ?_, ?_, rfl, rfl⟩
      · rw [Grid.setTile_tiles, if_pos ⟨rfl, rfl⟩]
      · by_cases h4 : d = 4
        · rw [if_pos h4]
          exact Or.inr rfl
        · rw [if_neg h4]
          exact Or.inl rfl
    · intro r' c' hne'
      rw [Grid.setTile_tiles, if_neg hne']
  · intro hfull
    unfold Grid.place_tile
    rw [(g.find_empty_none_iff k).mpr (g.full_iff.mpr hfull)]

/-- Witness for `place_tile_spec_thm`: a grid with an empty cell gives a
normal return, the full grid gives the failing assertion. -/
theorem place_tile_spec_thm_witness :
    g22.place_tile 0 0 ≠ none ∧ gFull.place_tile 0 0 = none := by
  constructor
  · obtain ⟨g', hg', -⟩ :=
      (place_tile_spec_thm g22 0 0).1 ⟨0, 2, by decide, by decide⟩
    rw [hg']
    exact Option.some_ne_none g'
  · exact (place_tile_spec_thm gFull 0 0).2 (gFull.full_iff.mp (by decide))

/-- Claim C7.  `find_empty` returns `none` exactly when no in-range cell
is empty; a returned position is an in-range empty cell; the candidate
list enumerates each empty cell exactly once (no duplicates, complete),
so the uniform index draw hits each empty cell for exactly one draw value
(uniform selection); and the embedding of `find_empty` is a pure function
of the grid, reflecting that the source only reads state. -/
theorem find_empty_spec_thm (g : Grid) (k : Nat) :
    (g.find_empty k = none ↔
      ∀ r c : Int, g.in_bounds r c = true → g.tiles r c ≠ none) ∧
    (∀ p : Int × Int, g.find_empty k = some p →
      g.in_bounds p.1 p.2 = true ∧ g.tiles p.1 p.2 = none) ∧
    g.empty_cells.Nodup ∧
    (∀ p : Int × Int, p ∈ g.empty_cells ↔
      (g.in_bounds p.1 p.2 = true ∧ g.tiles p.1 p.2 = none)) ∧
    (∀ p : Int × Int, g.in_bounds p.1 p.2 = true → g.tiles p.1 p.2 = none →
      ∃! k', k' < g.empty_cells.length ∧ g.find_empty k' = some p) := by
  refine ⟨?_, ?_, g.empty_cells_nodup, fun p => g.mem_empty_cells p, ?_⟩
  · rw [g.find_empty_none_iff k, g.full_iff]
  · intro p hp
    exact (g.mem_empty_cells p).mp (g.find_empty_mem k p hp)
  · intro p hin hnone
    have hmem : p ∈ g.empty_cells := (g.mem_empty_cells p).mpr ⟨hin, hnone⟩
    obtain ⟨i, hi⟩ : ∃ i, g.empty_cells.get? i = some p := by
      obtain ⟨⟨i, hlt⟩, hget⟩ := List.mem_iff_get.mp hmem
      exact ⟨i, by rw [List.get?_eq_some]; exact ⟨hlt, hget⟩⟩
    have hlt : i < g.empty_cells.length := by
      rw [List.get?_eq_some] at hi
      exact hi.1
    refine ⟨i, ⟨hlt, ?_⟩, ?_⟩
    · unfold Grid.find_empty
      rw [Nat.mod_eq_of_lt hlt]
      exact hi
    · rintro j ⟨hjlt, hj⟩
      unfold Grid.find_empty at hj
      rw [Nat.mod_eq_of_lt hjlt] at hj
      exact nodup_get?_inj g.empty_cells g.empty_cells_nodup j i p hj hi

/-- Witness for `find_empty_spec_thm` at a concrete grid. -/
theorem find_empty_spec_thm_witness :
    g22.empty_cells.Nodup ∧
    (g22.in_bounds 0 2 = true ∧ g22.tiles 0 2 = none) ∧
    (2, 3) ∈ g22.empty_cells :=
  ⟨(find_empty_spec_thm g22 0).2.2.1,
   (find_empty_spec_thm g22 0).2.1 (0, 2) (by decide),
   ((find_empty_spec_thm g22 0).2.2.2.1 (2, 3)).mpr (by decide)⟩

/-- Claim C8.  For any merge performed during a slide (under the
representation invariants: positions coherent, ids distinct, values
positive, and the slid tile stored at its cell): the merge operation
itself increases the absorbing tile's value while leaving its position
fields unchanged, the merged pair shared one value, and the absorbed
tile is removed from the grid and never occupies any cell again, neither
after the slide nor after any sequence of subsequent moves. -/
theorem merge_removes_absorbed (g : Grid) (t : Tile) (dx dy : Int)
    (rec : MergeRec) (ds : List Dir)
    (hv : isUnit dx dy) (hc : g.Coherent) (hd : g.DistinctIds) (hp : g.AllPos)
    (hin : g.in_bounds t.row t.col = true)
    (hcell : g.tiles t.row t.col = some t)
    (hmem : rec ∈ (t.slideLog g dx dy).2) :
    (Tile.merge rec.absorber rec.absorbed).row = rec.absorber.row ∧
    (Tile.merge rec.absorber rec.absorbed).col = rec.absorber.col ∧
    rec.absorbed.value = rec.absorber.value ∧
    rec.absorber.value < (Tile.merge rec.absorber rec.absorbed).value ∧
    rec.absorbed.id ∉ ((t.slideLog g dx dy).1).tile_ids ∧
    rec.absorbed.id ∉ (applyMoves ds ((t.slideLog g dx dy).1)).tile_ids := by
  have h := t.slideLog_ids g dx dy hv hc hd hp hin hcell rec hmem
  refine ⟨rfl, rfl, h.2.2.1, ?_, h.2.2.2.1, ?_⟩
  · show rec.absorber.value < rec.absorber.value + rec.absorbed.value
    have h1 := h.2.1
    have h2 := h.2.2.1
    omega
  · intro hmem2
    exact h.2.2.2.1 (applyMoves_ids_sub ds ((t.slideLog g dx dy).1)
      rec.absorbed.id hmem2)

/-- Witness for `merge_removes_absorbed` at a concrete grid, tile, merge
record and subsequent move. -/
theorem merge_removes_absorbed_witness :
    (Tile.merge rec0.absorber rec0.absorbed).row = rec0.absorber.row ∧
    (Tile.merge rec0.absorber rec0.absorbed).col = rec0.absorber.col ∧
    rec0.absorbed.value = rec0.absorber.value ∧
    rec0.absorber.value < (Tile.merge rec0.absorber rec0.absorbed).value ∧
    rec0.absorbed.id ∉ ((t022.slideLog g4220 (-1) 0).1).tile_ids ∧
    rec0.absorbed.id ∉
      (applyMoves [Dir.left] ((t022.slideLog g4220 (-1) 0).1)).tile_ids :=
  merge_removes_absorbed g4220 t022 (-1) 0 rec0 [Dir.left]
    (Or.inl ⟨rfl, rfl⟩) (by decide) (by decide) (by decide)
    (by decide) (by decide) (by decide)

/-- Claim C9.  `set_tiles` replaces only the cell contents: whenever it
returns normally, the accumulated score field is unchanged, so loading a
saved configuration neither resets the score nor restores a saved one. -/
theorem set_tiles_preserves_score (g : Grid) (rep : List (List Int)) (g' : Grid)
    (h : g.set_tiles rep = some g') : g'.score = g.score ∧ g'.sum = g.sum :=
  ⟨(g.set_tiles_spec rep g' h).2.2.1, (g.set_tiles_spec rep g' h).2.2.1⟩

/-- Witness for `set_tiles_preserves_score` on a grid with score 7. -/
theorem set_tiles_preserves_score_witness :
    ((({ Grid.init with sum := 7 } : Grid).set_tiles rep22).getD Grid.init).score =
      ({ Grid.init with sum := 7 } : Grid).score :=
  (set_tiles_preserves_score { Grid.init with sum := 7 } rep22
    ((({ Grid.init with sum := 7 } : Grid).set_tiles rep22).getD Grid.init) rfl).1

/-- Claim C10.  For a tile whose position is in bounds and any of the
four movement vectors, the slide loop terminates within
`max rows cols` = N iterations: the loop run with that much fuel already
reaches a stop, and `Tile.slide` (which runs with fuel `rows + cols`)
computes exactly that result. -/
theorem slide_terminates_within_bound (g : Grid) (t : Tile) (dx dy : Int)
    (hv : isUnit dx dy) (hin : g.in_bounds t.row t.col = true) :
    ∃ x : Grid × Tile × List MergeRec,
      slideLoop (Nat.max g.rows g.cols) g t dx dy t.row t.col = some x ∧
      t.slide g dx dy = (x.1, x.2.1) := by
  have h1 := slideLoop_isSome (Nat.max g.rows g.cols) g t dx dy t.row t.col hv
    (distWall_lt_max g dx dy t.row t.col hv hin)
  obtain ⟨x, hx⟩ := Option.isSome_iff_exists.mp h1
  obtain ⟨a, b, c⟩ := x
  refine ⟨(a, b, c), hx, ?_⟩
  have h2 := slideLoop_mono (Nat.max g.rows g.cols) (g.rows + g.cols)
    (Nat.max_le.mpr ⟨Nat.le_add_right g.rows g.cols, Nat.le_add_left g.cols g.rows⟩)
    g t dx dy t.row t.col (a, b, c) hx
  unfold Tile.slide
  rw [h2]

/-- Witness for `slide_terminates_within_bound` at a concrete grid and
tile. -/
theorem slide_terminates_within_bound_witness :
    (slideLoop (Nat.max g4220.rows g4220.cols) g4220 t022 (-1) 0
      t022.row t022.col).isSome = true := by
  obtain ⟨x, hx, -⟩ := slide_terminates_within_bound g4220 t022 (-1) 0
    (Or.inl ⟨rfl, rfl⟩) (by decide)
  rw [hx]
  rfl
